import Mathlib

/-!
# AWS SSO data sources and tag reconciliation: a verification development

Shallow embedding of the SSO part of the provider:

* `dataSourceAwsSsoInstanceID` and `dataSourceAwsSsoInstanceRead`
  (`aws/data_source_aws_sso_instance.go`),
* `dataSourceAwsIdentityStoreUserRead` (`aws/data_source_aws_identity_store_user.go`),
* `dataSourceAwsSsoPermissionSetRead` (`aws/data_source_aws_sso_permission_set.go`),
* `resourceAwsSsoPermissionSetRead`, `resourceAwsSsoPermissionSetCreate`,
  `resourceAwsSsoPermissionSetUpdate` and `attachPoliciesToPermissionSet`
  (`aws/resource_aws_sso_permission_set.go`),
* `SsoUpdateTags`, `SsoListTags`, `KeyValueTags.SsoTags` and `SsoKeyValueTags`
  (`aws/internal/keyvaluetags/sso_tags.go`).

Go strings are Lean strings; a Go `(value, error)` result is a pair whose second
component is `none` for a nil error; remote clients are records of the answers
the remote service gives, plus the remote tag state and a log of the writing
requests received.
-/

namespace Aws

/-! ## Go standard library: package strings -/

namespace strings

/-- The loop of `genSplit`: cut at the first `n` occurrences of the separator,
the remainder is the last piece. `List.span` plays the part of `Index`. -/
def splitLoop (sep : Char) : Nat → List Char → List (List Char)
  | 0, s => [s]
  | n + 1, s =>
    match s.span (fun c => c != sep) with
    | (pre, []) => [pre]
    | (pre, _ :: rest) => pre :: splitLoop sep n rest

/-- Go `strings.genSplit` for a separator of one character (the only separators
used by the provider are ":" and "/"): `n = 0` gives no piece, `n < 0` means
all pieces (`Count + 1` of them), `n > 0` at most `n` pieces. -/
def genSplit (s : List Char) (sep : Char) (n : Int) : List (List Char) :=
  if n = 0 then []
  else
    let m : Int := if n < 0 then (s.count sep : Int) + 1 else n
    splitLoop sep (m.toNat - 1) s

/-- Go `strings.Split(s, sep)`. -/
def Split (s : String) (sep : Char) : List String :=
  (genSplit s.data sep (-1)).map String.mk

/-- Go `strings.SplitN(s, sep, n)`. -/
def SplitN (s : String) (sep : Char) (n : Int) : List String :=
  (genSplit s.data sep n).map String.mk

/-- Go `strings.HasPrefix(s, prefix)`. -/
def HasPrefix (s pre : String) : Bool :=
  pre.data.isPrefixOf s.data

/-- The loop of the comparison `a < b` of two Go strings, on their characters
(the order of the code points is the order of the UTF-8 bytes). -/
def lessLoop : List Char → List Char → Bool
  | [], [] => false
  | [], _ :: _ => true
  | _ :: _, [] => false
  | a :: as, b :: bs =>
    if a.toNat < b.toNat then true
    else if b.toNat < a.toNat then false
    else lessLoop as bs

/-- Go `a < b` on strings. -/
def Less (a b : String) : Bool :=
  lessLoop a.data b.data

/-- Go `strings.Join(elems, sep)`. -/
def Join : List String → String → String
  | [], _ => ""
  | [a], _ => a
  | a :: b :: rest, sep => a ++ sep ++ Join (b :: rest) sep

end strings

/-! ## Go standard library: package hash/crc32 -/

namespace crc32

/-- The polynomial `crc32.IEEE`. -/
def IEEE : Nat := 0xedb88320

/-- One bit leaves the register of the checksum. -/
def shift (crc : Nat) : Nat :=
  if crc % 2 = 1 then (crc >>> 1) ^^^ IEEE else crc >>> 1

/-- One byte enters the register: the table of the library, bit by bit. -/
def update (crc : Nat) (b : UInt8) : Nat :=
  Nat.iterate shift 8 (crc ^^^ b.toNat)

/-- Go `crc32.ChecksumIEEE(data)`. -/
def ChecksumIEEE (data : List UInt8) : Nat :=
  (data.foldl update 0xffffffff) ^^^ 0xffffffff

end crc32

/-! ## aws-sdk-go: package arn -/

namespace arn

/-- The `arn.ARN` structure of aws-sdk-go. -/
structure ARN where
  Partition : String
  Service : String
  Region : String
  AccountID : String
  Resource : String
  deriving DecidableEq, Repr

def arnPrefix : String := "arn:"
def arnSections : Nat := 6
def invalidPrefix : String := "arn: invalid prefix"
def invalidSections : String := "arn: not enough sections"

/-- The function `arn.Parse` of aws-sdk-go (a library the provider imports): the
string must start with `arn:` and split, at the first five colons, into six
sections; the sixth is the resource. -/
def Parse (s : String) : Except String ARN :=
  if !strings.HasPrefix s arnPrefix then .error invalidPrefix
  else
    match strings.SplitN s ':' arnSections with
    | [_, partition, service, region, account, resource] =>
      .ok ⟨partition, service, region, account, resource⟩
    | _ => .error invalidSections

end arn

/-! ## aws/data_source_aws_sso_instance.go: the composite identifier -/

/-- The message of the `fmt.Errorf` at the format check of
`dataSourceAwsSsoInstanceID`. -/
def unexpectedArnFormat (instanceArn : String) : String :=
  "Unexpected format of ARN (" ++ instanceArn ++
    "), expected arn:$\x7bPartition\x7d:sso:::instance/$\x7bInstanceId\x7d"

/-- `dataSourceAwsSsoInstanceID(instanceArn, identityStoreId)`: the returned
pair is the Go `(string, error)`. -/
def dataSourceAwsSsoInstanceID (instanceArn identityStoreId : String) :
    String × Option String :=
  match arn.Parse instanceArn with
  | .error err => ("", some err)
  | .ok iArn =>
    let iArnResourceParts := strings.Split iArn.Resource '/'
    if iArnResourceParts.length != 2 || iArnResourceParts[0]! != "instance"
        || iArnResourceParts[1]! == "" then
      ("", some (unexpectedArnFormat instanceArn))
    else
      let instanceID := iArnResourceParts[1]!
      let vars := [instanceID, identityStoreId]
      (strings.Join vars "/", none)

/-! ## aws-sdk-go: pointers, errors and the SSO Admin shapes -/

namespace aws

/-- `aws.StringValue`: the string behind a pointer, the empty string for nil. -/
def StringValue : Option String → String
  | some s => s
  | none => ""

end aws

namespace awserr

/-- An error answered by the remote service: its code and its message. -/
structure Error where
  Code : String
  Message : String
  deriving DecidableEq, Repr

set_option linter.dupNamespace false in
/-- The text the error formats to under `%s`. -/
def Error.Error (e : Error) : String :=
  e.Code ++ ": " ++ e.Message

end awserr

namespace ssoadmin

/-- The code the service answers with when the resource does not exist. -/
def ErrCodeResourceNotFoundException : String := "ResourceNotFoundException"

structure Tag where
  Key : Option String
  Value : Option String
  deriving DecidableEq, Repr

structure UntagResourceInput where
  InstanceArn : Option String
  ResourceArn : Option String
  TagKeys : List (Option String)
  deriving DecidableEq, Repr

structure TagResourceInput where
  InstanceArn : Option String
  ResourceArn : Option String
  Tags : List Tag
  deriving DecidableEq, Repr

structure CreatePermissionSetInput where
  InstanceArn : Option String
  Name : Option String
  Description : Option String
  RelayState : Option String
  SessionDuration : Option String
  Tags : List Tag
  deriving DecidableEq, Repr

structure UpdatePermissionSetInput where
  PermissionSetArn : Option String
  InstanceArn : Option String
  Description : Option String
  RelayState : Option String
  SessionDuration : Option String
  deriving DecidableEq, Repr

structure PutInlinePolicyToPermissionSetInput where
  InlinePolicy : Option String
  InstanceArn : Option String
  PermissionSetArn : Option String
  deriving DecidableEq, Repr

structure DeleteInlinePolicyFromPermissionSetInput where
  InstanceArn : Option String
  PermissionSetArn : Option String
  deriving DecidableEq, Repr

structure AttachManagedPolicyToPermissionSetInput where
  InstanceArn : Option String
  ManagedPolicyArn : Option String
  PermissionSetArn : Option String
  deriving DecidableEq, Repr

structure DetachManagedPolicyFromPermissionSetInput where
  InstanceArn : Option String
  ManagedPolicyArn : Option String
  PermissionSetArn : Option String
  deriving DecidableEq, Repr

/-- A writing request as the service receives it. -/
inductive Request where
  | UntagResource (input : UntagResourceInput)
  | TagResource (input : TagResourceInput)
  | CreatePermissionSet (input : CreatePermissionSetInput)
  | UpdatePermissionSet (input : UpdatePermissionSetInput)
  | PutInlinePolicyToPermissionSet (input : PutInlinePolicyToPermissionSetInput)
  | DeleteInlinePolicyFromPermissionSet (input : DeleteInlinePolicyFromPermissionSetInput)
  | AttachManagedPolicyToPermissionSet (input : AttachManagedPolicyToPermissionSetInput)
  | DetachManagedPolicyFromPermissionSet (input : DetachManagedPolicyFromPermissionSetInput)
  deriving DecidableEq, Repr

structure InstanceMetadata where
  InstanceArn : Option String
  IdentityStoreId : Option String
  deriving DecidableEq, Repr

structure ListInstancesOutput where
  Instances : List InstanceMetadata
  deriving DecidableEq, Repr

/-- A permission set as described by the service; `CreatedDate` stands for the
date already formatted as RFC 3339 text. -/
structure PermissionSet where
  Name : Option String
  Description : Option String
  SessionDuration : Option String
  RelayState : Option String
  PermissionSetArn : Option String
  CreatedDate : String
  deriving DecidableEq, Repr

structure AttachedManagedPolicy where
  Arn : Option String
  Name : Option String
  deriving DecidableEq, Repr

/-- The SSO Admin client, seen from the provider: the answer of the service to
each read request, and for the two tagging calls the tags the service holds for
the resource and the failure the service answers each call with (if any);
`requests` are the writing calls made on the client so far, oldest first, whether
they passed the validation of the SDK or not. The other writing calls are
answered according to their input (validation by the SDK included):
`createPermissionSetAnswer` with the permission set created or an error, the
remaining ones with an error or none (by default none). -/
structure SSOAdmin where
  ListInstancesPages : List (Option ListInstancesOutput) × Option awserr.Error
  ListPermissionSets : (instanceArn : String) → Except awserr.Error (Option (List (Option String)))
  DescribePermissionSet : (instanceArn permissionSetArn : String) → Except awserr.Error PermissionSet
  GetInlinePolicyForPermissionSet :
    (instanceArn permissionSetArn : String) → Except awserr.Error (Option String)
  ListManagedPoliciesInPermissionSet :
    (instanceArn permissionSetArn : String) → Except awserr.Error (List AttachedManagedPolicy)
  ListTagsForResource : (instanceArn resourceArn : String) → Except awserr.Error (List Tag)
  remoteTags : List (String × String)
  untagResourceErr : Option awserr.Error
  tagResourceErr : Option awserr.Error
  requests : List Request
  createPermissionSetAnswer : CreatePermissionSetInput → Except awserr.Error PermissionSet :=
    fun input => .ok ⟨input.Name, input.Description, input.SessionDuration, input.RelayState,
      none, ""⟩
  updatePermissionSetErr : UpdatePermissionSetInput → Option awserr.Error := fun _ => none
  putInlinePolicyErr : PutInlinePolicyToPermissionSetInput → Option awserr.Error := fun _ => none
  deleteInlinePolicyErr : DeleteInlinePolicyFromPermissionSetInput → Option awserr.Error :=
    fun _ => none
  attachManagedPolicyErr : AttachManagedPolicyToPermissionSetInput → Option awserr.Error :=
    fun _ => none
  detachManagedPolicyErr : DetachManagedPolicyFromPermissionSetInput → Option awserr.Error :=
    fun _ => none

/-- The error of the SDK for an input that violates `n` of its constraints
(`request.ErrInvalidParams`). -/
def invalidParams (n : Nat) : awserr.Error :=
  ⟨"InvalidParameter", toString n ++ " validation error(s) found."⟩

/-- The constraints of the SDK on an ARN field, counted when violated: the field
is required and has at least ten bytes. -/
def arnViolations : Option String → Nat
  | none => 1
  | some s => if s.utf8ByteSize < 10 then 1 else 0

/-- `UntagResourceInput.Validate` of aws-sdk-go: both ARNs are required with at
least ten bytes, and there is at least one tag key. -/
def UntagResourceInput.Validate (s : UntagResourceInput) : Option awserr.Error :=
  let n := arnViolations s.InstanceArn + arnViolations s.ResourceArn +
    (if s.TagKeys.length < 1 then 1 else 0)
  if n = 0 then none else some (invalidParams n)

/-- `Tag.Validate` of aws-sdk-go, counted: the key is required with at least one
byte, the value is required. -/
def Tag.violations (t : Tag) : Nat :=
  (match t.Key with
    | none => 1
    | some k => if k.utf8ByteSize < 1 then 1 else 0) +
  (match t.Value with
    | none => 1
    | some _ => 0)

/-- `TagResourceInput.Validate` of aws-sdk-go: both ARNs are required with at
least ten bytes, and every tag is valid; a list without tags passes. -/
def TagResourceInput.Validate (s : TagResourceInput) : Option awserr.Error :=
  let n := arnViolations s.InstanceArn + arnViolations s.ResourceArn +
    (s.Tags.map Tag.violations).sum
  if n = 0 then none else some (invalidParams n)

/-- What an `UntagResource` call returns: the error of the validation, which the
SDK runs before it sends anything, or else the answer of the service. -/
def SSOAdmin.untagAnswer (conn : SSOAdmin) (input : UntagResourceInput) : Option awserr.Error :=
  match input.Validate with
  | some e => some e
  | none => conn.untagResourceErr

/-- What a `TagResource` call returns, likewise. -/
def SSOAdmin.tagAnswer (conn : SSOAdmin) (input : TagResourceInput) : Option awserr.Error :=
  match input.Validate with
  | some e => some e
  | none => conn.tagResourceErr

/-- The call `UntagResource`: it is recorded; unless it fails, at the validation
or at the service, the listed keys leave the tags of the resource. -/
def SSOAdmin.UntagResource (conn : SSOAdmin) (input : UntagResourceInput) :
    Option awserr.Error × SSOAdmin :=
  let conn1 := { conn with requests := conn.requests ++ [Request.UntagResource input] }
  match conn.untagAnswer input with
  | some e => (some e, conn1)
  | none =>
    (none, { conn1 with
      remoteTags := conn1.remoteTags.filter
        (fun kv => !(input.TagKeys.map aws.StringValue).contains kv.1) })

/-- One tag written at the service: the key gets the value, whether it was
present or not. -/
def putTag (tags : List (String × String)) (t : Tag) : List (String × String) :=
  (aws.StringValue t.Key, aws.StringValue t.Value) ::
    tags.filter (fun kv => kv.1 != aws.StringValue t.Key)

/-- The call `TagResource`: it is recorded; unless it fails, at the validation or
at the service, every tag of the request is written. -/
def SSOAdmin.TagResource (conn : SSOAdmin) (input : TagResourceInput) :
    Option awserr.Error × SSOAdmin :=
  let conn1 := { conn with requests := conn.requests ++ [Request.TagResource input] }
  match conn.tagAnswer input with
  | some e => (some e, conn1)
  | none => (none, { conn1 with remoteTags := input.Tags.foldl putTag conn1.remoteTags })

/-- The call is added to those made. -/
def SSOAdmin.record (conn : SSOAdmin) (r : Request) : SSOAdmin :=
  { conn with requests := conn.requests ++ [r] }

/-- The service side of `CreatePermissionSet`. -/
def SSOAdmin.CreatePermissionSet (conn : SSOAdmin) (input : CreatePermissionSetInput) :
    Except awserr.Error PermissionSet × SSOAdmin :=
  (conn.createPermissionSetAnswer input, conn.record (.CreatePermissionSet input))

/-- The service side of `UpdatePermissionSet`. -/
def SSOAdmin.UpdatePermissionSet (conn : SSOAdmin) (input : UpdatePermissionSetInput) :
    Option awserr.Error × SSOAdmin :=
  (conn.updatePermissionSetErr input, conn.record (.UpdatePermissionSet input))

/-- The service side of `PutInlinePolicyToPermissionSet`. -/
def SSOAdmin.PutInlinePolicyToPermissionSet (conn : SSOAdmin)
    (input : PutInlinePolicyToPermissionSetInput) : Option awserr.Error × SSOAdmin :=
  (conn.putInlinePolicyErr input, conn.record (.PutInlinePolicyToPermissionSet input))

/-- The service side of `DeleteInlinePolicyFromPermissionSet`. -/
def SSOAdmin.DeleteInlinePolicyFromPermissionSet (conn : SSOAdmin)
    (input : DeleteInlinePolicyFromPermissionSetInput) : Option awserr.Error × SSOAdmin :=
  (conn.deleteInlinePolicyErr input, conn.record (.DeleteInlinePolicyFromPermissionSet input))

/-- The service side of `AttachManagedPolicyToPermissionSet`. -/
def SSOAdmin.AttachManagedPolicyToPermissionSet (conn : SSOAdmin)
    (input : AttachManagedPolicyToPermissionSetInput) : Option awserr.Error × SSOAdmin :=
  (conn.attachManagedPolicyErr input, conn.record (.AttachManagedPolicyToPermissionSet input))

/-- The service side of `DetachManagedPolicyFromPermissionSet`. -/
def SSOAdmin.DetachManagedPolicyFromPermissionSet (conn : SSOAdmin)
    (input : DetachManagedPolicyFromPermissionSetInput) : Option awserr.Error × SSOAdmin :=
  (conn.detachManagedPolicyErr input, conn.record (.DetachManagedPolicyFromPermissionSet input))

/-- Whether the service answers the request with an error, for the two calls on
managed policies. -/
def SSOAdmin.fails (conn : SSOAdmin) : Request → Bool
  | .AttachManagedPolicyToPermissionSet input => (conn.attachManagedPolicyErr input).isSome
  | .DetachManagedPolicyFromPermissionSet input => (conn.detachManagedPolicyErr input).isSome
  | _ => false

/-- A client for a service that has the given instances (on one page), the given
permission sets and, for the resource, the given tags, and that fails no call: a
permission set is described under its own ARN, any other ARN is answered with
the not-found error. -/
def SSOAdmin.serving (instances : List InstanceMetadata) (sets : List PermissionSet)
    (tags : List (String × String)) : SSOAdmin where
  ListInstancesPages := ([some ⟨instances⟩], none)
  ListPermissionSets := fun _ => .ok (some (sets.map (fun ps => ps.PermissionSetArn)))
  DescribePermissionSet := fun _ permissionSetArn =>
    match sets.find? (fun ps => aws.StringValue ps.PermissionSetArn == permissionSetArn) with
    | some ps => .ok ps
    | none => .error ⟨ErrCodeResourceNotFoundException, "not found"⟩
  GetInlinePolicyForPermissionSet := fun _ _ => .ok none
  ListManagedPoliciesInPermissionSet := fun _ _ => .ok []
  ListTagsForResource := fun _ _ => .ok (tags.map (fun kv => ⟨some kv.1, some kv.2⟩))
  remoteTags := tags
  untagResourceErr := none
  tagResourceErr := none
  requests := []

/-- A client whose service holds the given tags for the resource and has neither
an instance nor a permission set; no call fails. -/
def SSOAdmin.holding (tags : List (String × String)) : SSOAdmin :=
  SSOAdmin.serving [] [] tags

/-- The pagination of aws-sdk-go (`request.Pagination`, behind every `...Pages`
call): the callback gets each page and whether it is the last one, and stops the
walk by returning false. -/
def eachPage {σ α : Type} (fn : σ → Option α → Bool → σ × Bool) : σ → List (Option α) → σ
  | st, [] => st
  | st, [page] => (fn st page true).1
  | st, page :: next :: rest =>
    match fn st page false with
    | (st1, true) => eachPage fn st1 (next :: rest)
    | (st1, false) => st1

end ssoadmin

/-! ## aws/internal/keyvaluetags -/

namespace keyvaluetags

/-- Modelled from the spec: the type `KeyValueTags` of key_value_tags.go, a file
of the repository that is not among the sources. The spec: a tag set is a
"mapping from string key to string value; keys unique; order irrelevant". Here an
association list, whose keys are pairwise distinct in every value that stands for
a Go map (`KeysUnique`). -/
abbrev KeyValueTags := List (String × String)

/-- The keys of a tag set are pairwise distinct, as in a Go map. -/
def KeysUnique (tags : KeyValueTags) : Prop :=
  (tags.map Prod.fst).Nodup

instance (tags : KeyValueTags) : Decidable (KeysUnique tags) := by
  unfold KeysUnique; infer_instance

/-- Modelled from the spec: `New` of key_value_tags.go (not among the sources),
which makes a `KeyValueTags` of a map from keys to values. -/
def New (m : List (String × String)) : KeyValueTags := m

/-- Modelled from the spec: the constant `AwsTagKeyPrefix` of key_value_tags.go
(not among the sources), the prefix of the keys reserved by AWS. -/
def AwsTagKeyPrefix : String := "aws:"

/-- Modelled from the spec: `KeyValueTags.Map` of key_value_tags.go (not among the
sources): the tag set as a map from keys to values. -/
def KeyValueTags.Map (tags : KeyValueTags) : List (String × String) := tags

/-- Modelled from the spec: `KeyValueTags.Keys` of key_value_tags.go (not among
the sources): the keys of the tag set. -/
def KeyValueTags.Keys (tags : KeyValueTags) : List String :=
  tags.map Prod.fst

/-- Modelled from the spec: `KeyValueTags.Removed` of key_value_tags.go (not among
the sources). The spec: "removed = keys present in old but absent in new". -/
def KeyValueTags.Removed (tags newTags : KeyValueTags) : KeyValueTags :=
  tags.filter (fun kv => (newTags.lookup kv.1).isNone)

/-- Modelled from the spec: `KeyValueTags.Updated` of key_value_tags.go (not among
the sources). The spec: "updated = key-value pairs present in new that differ
from old or are newly added". -/
def KeyValueTags.Updated (tags newTags : KeyValueTags) : KeyValueTags :=
  newTags.filter (fun kv => tags.lookup kv.1 != some kv.2)

/-- Modelled from the spec: `KeyValueTags.IgnoreAws` of key_value_tags.go (not
among the sources). The spec does not describe it; it is modelled after its name
and its use at every tagging call of the provider: the tags whose key carries the
prefix reserved by AWS are left out. -/
def KeyValueTags.IgnoreAws (tags : KeyValueTags) : KeyValueTags :=
  tags.filter (fun kv => !strings.HasPrefix kv.1 AwsTagKeyPrefix)

/-- `KeyValueTags.SsoTags` of sso_tags.go: one service tag per entry of the map.
Go ranges over a map in no fixed order; here the order is that of the list. -/
def KeyValueTags.SsoTags (tags : KeyValueTags) : List ssoadmin.Tag :=
  tags.Map.foldl (fun result kv => result ++ [⟨some kv.1, some kv.2⟩]) []

/-- Go map assignment `m[k] = v` on an association list. -/
def mapAssign (m : List (String × Option String)) (k : String) (v : Option String) :
    List (String × Option String) :=
  if m.any (fun kv => kv.1 == k) then m.map (fun kv => if kv.1 == k then (k, v) else kv)
  else m ++ [(k, v)]

/-- `SsoKeyValueTags` of sso_tags.go: the tag set of a list of service tags. -/
def SsoKeyValueTags (tags : List ssoadmin.Tag) : KeyValueTags :=
  let m := tags.foldl (fun m tag => mapAssign m (aws.StringValue tag.Key) tag.Value) []
  New (m.map (fun kv => (kv.1, aws.StringValue kv.2)))

/-- `SsoListTags` of sso_tags.go. -/
def SsoListTags (conn : ssoadmin.SSOAdmin) (identifier instanceArn : String) :
    KeyValueTags × Option awserr.Error :=
  match conn.ListTagsForResource instanceArn identifier with
  | .error err => (New [], some err)
  | .ok output => (SsoKeyValueTags output, none)

/-- `SsoUpdateTags` of sso_tags.go: the error returned (none for nil) and the
client after the calls. -/
def SsoUpdateTags (conn : ssoadmin.SSOAdmin) (identifier instanceArn : String)
    (oldTagsMap newTagsMap : List (String × String)) : Option String × ssoadmin.SSOAdmin :=
  let oldTags := New oldTagsMap
  let newTags := New newTagsMap
  let removedTags := oldTags.Removed newTags
  let afterUntag : Option String × ssoadmin.SSOAdmin :=
    if removedTags.length > 0 then
      let input : ssoadmin.UntagResourceInput :=
        { InstanceArn := some instanceArn
          ResourceArn := some identifier
          TagKeys := removedTags.IgnoreAws.Keys.map some }
      match conn.UntagResource input with
      | (some err, conn1) =>
        (some ("error untagging resource (" ++ identifier ++ "): " ++ err.Error), conn1)
      | (none, conn1) => (none, conn1)
    else (none, conn)
  match afterUntag with
  | (some e, conn1) => (some e, conn1)
  | (none, conn1) =>
    let updatedTags := oldTags.Updated newTags
    if updatedTags.length > 0 then
      let input : ssoadmin.TagResourceInput :=
        { InstanceArn := some instanceArn
          ResourceArn := some identifier
          Tags := updatedTags.IgnoreAws.SsoTags }
      match conn1.TagResource input with
      | (some err, conn2) =>
        (some ("error tagging resource (" ++ identifier ++ "): " ++ err.Error), conn2)
      | (none, conn2) => (none, conn2)
    else (none, conn1)

/-- The value of the last tag of the list that bears the key, if any does. -/
def lastValue (k : String) : List ssoadmin.Tag → Option String
  | [] => none
  | t :: rest =>
    match lastValue k rest with
    | some v => some v
    | none => if aws.StringValue t.Key == k then some (aws.StringValue t.Value) else none

/-- Two tag lists stand for the same map: every key has the same value, or
none, in both. -/
def SameTags (s t : List (String × String)) : Prop :=
  ∀ k, s.lookup k = t.lookup k

end keyvaluetags

/-! ## aws-sdk-go: the Identity Store shapes -/

namespace identitystore

structure User where
  UserId : Option String
  UserName : Option String
  deriving DecidableEq, Repr

structure DescribeUserInput where
  IdentityStoreId : Option String
  UserId : Option String
  deriving DecidableEq, Repr

structure DescribeUserOutput where
  UserId : Option String
  UserName : Option String
  deriving DecidableEq, Repr

structure Filter where
  AttributePath : Option String
  AttributeValue : Option String
  deriving DecidableEq, Repr

structure ListUsersInput where
  IdentityStoreId : Option String
  Filters : List Filter
  deriving DecidableEq, Repr

structure ListUsersOutput where
  Users : List User
  deriving DecidableEq, Repr

/-- The Identity Store client: the answer of the service to each request. -/
structure IdentityStore where
  DescribeUser : DescribeUserInput → Except awserr.Error DescribeUserOutput
  ListUsers : ListUsersInput → Except awserr.Error (Option ListUsersOutput)

/-- A client for a store with the given users: `ListUsers` answers with the users
whose name is the value of the first filter, in the order given. -/
def IdentityStore.serving (users : List User) : IdentityStore where
  DescribeUser := fun input =>
    match users.find? (fun u => u.UserId == input.UserId) with
    | some u => .ok ⟨u.UserId, u.UserName⟩
    | none => .error ⟨"ResourceNotFoundException", "not found"⟩
  ListUsers := fun input =>
    match input.Filters with
    | f :: _ => .ok (some ⟨users.filter (fun u => u.UserName == f.AttributeValue)⟩)
    | [] => .ok (some ⟨users⟩)

end identitystore

/-! ## terraform-plugin-sdk: schema.ResourceData -/

namespace schema

/-- A value held by an attribute of the resource data. -/
inductive Value where
  | string (s : String)
  | stringList (l : List String)
  | stringMap (m : List (String × String))
  | set (items : List (List (String × String)))
  deriving DecidableEq, Repr

/-- `schema.ResourceData`: the identifier and the attributes. -/
structure ResourceData where
  id : String
  attrs : List (String × Value)
  deriving DecidableEq, Repr

/-- `d.Id()`. -/
def ResourceData.Id (d : ResourceData) : String := d.id

/-- `d.SetId(v)`. -/
def ResourceData.SetId (d : ResourceData) (v : String) : ResourceData :=
  { d with id := v }

/-- `d.Get(key).(string)`: the string held by the attribute, the zero value when
the attribute is not set. -/
def ResourceData.GetString (d : ResourceData) (key : String) : String :=
  match d.attrs.lookup key with
  | some (.string v) => v
  | _ => ""

/-- `d.Set(key, value)`. -/
def ResourceData.Set (d : ResourceData) (key : String) (value : Value) : ResourceData :=
  { d with attrs := (key, value) :: d.attrs.filter (fun kv => kv.1 != key) }

/-- `schema.HashString` of the SDK, that is `hashcode.String`: the CRC-32 of the
bytes of the string, as an `int` (of 64 bits, so never negative). -/
def HashString (v : String) : Int :=
  (crc32.ChecksumIEEE (v.data.flatMap String.utf8EncodeChar) : Int)

/-- `schema.HashSchema` of the SDK for elements of type string, the hash function
of a set attribute that declares none (as `managed_policies` does): the value is
written out, closed by a semicolon, and the text is hashed. -/
def HashSchema (v : String) : Int :=
  HashString (v ++ ";")

/-- `schema.Set` with its hash function `F`: the items of the map `m`, each under
the key made of its hash code. -/
structure Set (α : Type) where
  F : α → Int
  m : List (String × α)

/-- `Set.hash`: the key of an item, the decimal text of its hash code made
non-negative. -/
def Set.hash {α : Type} (s : Set α) (item : α) : String :=
  toString (s.F item).natAbs

/-- `Set.Add`: the item is stored under its key unless the key is taken. -/
def Set.Add {α : Type} (s : Set α) (item : α) : Set α :=
  if s.m.any (fun e => e.1 == s.hash item) then s else { s with m := s.m ++ [(s.hash item, item)] }

/-- `Set.Len`. -/
def Set.Len {α : Type} (s : Set α) : Nat :=
  s.m.length

/-- `Set.Difference`: the items of `s` whose key `other` does not hold. -/
def Set.Difference {α : Type} (s other : Set α) : Set α :=
  { s with m := s.m.filter (fun e => !other.m.any (fun o => o.1 == e.1)) }

/-- The set the SDK builds of the elements stored for a set attribute. -/
def Set.ofList {α : Type} (F : α → Int) (items : List α) : Set α :=
  items.foldl Set.Add ⟨F, []⟩

/-- Entries of a set in the order of `Set.listCode`: sorted by key, as texts
(`sort.Strings`). -/
def byKey {α : Type} (entries : List (String × α)) : List (String × α) :=
  entries.insertionSort (fun a b => strings.Less b.1 a.1 = false)

/-- `Set.List`: the items in the order of their sorted keys. -/
def Set.List {α : Type} (s : Set α) : List α :=
  (byKey s.m).map Prod.snd

/-- `d.HasChange(key)`; `old` holds the attributes of the prior state. -/
def ResourceData.HasChange (d : ResourceData) (old : List (String × Value)) (key : String) :
    Bool :=
  old.lookup key != d.attrs.lookup key

/-- `d.HasChanges(keys...)`. -/
def ResourceData.HasChanges (d : ResourceData) (old : List (String × Value))
    (keys : List String) : Bool :=
  keys.any (d.HasChange old)

/-- The map held by a value, the empty map for any other value. -/
def Value.asMap : Option Value → List (String × String)
  | some (.stringMap m) => m
  | _ => []

/-- The set of strings held by a value, built with the hash function of the SDK
for such a set; the empty set for any other value. -/
def Value.asStringSet : Option Value → Set String
  | some (.stringList l) => Set.ofList HashSchema l
  | _ => ⟨HashSchema, []⟩

/-- `d.GetOk(key)` for a string attribute: the value, and whether it is set to
something else than the zero value. -/
def ResourceData.GetOkString (d : ResourceData) (key : String) : String × Bool :=
  (d.GetString key, d.GetString key != "")

end schema

/-! ## The provider: client and handlers -/

open schema keyvaluetags in
/-- The provider's `AWSClient` (the `meta` of every handler), as far as the SSO
handlers use it. `IgnoreTagsConfig` stands for `KeyValueTags.IgnoreConfig` applied
to the configured `ignoreTagsConfig`; `permissionSetManagedPoliciesHash` is the
hash function of the managed policy set, defined elsewhere in the provider. -/
structure AWSClient where
  ssoadminconn : ssoadmin.SSOAdmin
  identitystoreconn : identitystore.IdentityStore
  IgnoreTagsConfig : KeyValueTags → KeyValueTags
  permissionSetManagedPoliciesHash : List (String × String) → Int

/-- The provider client made of the two service clients, with no tag ignored by
configuration and the managed policies hashed by the length of their ARN. -/
def AWSClient.of (sso : ssoadmin.SSOAdmin) (ids : identitystore.IdentityStore) : AWSClient where
  ssoadminconn := sso
  identitystoreconn := ids
  IgnoreTagsConfig := fun tags => tags
  permissionSetManagedPoliciesHash := fun item => (aws.StringValue (item.lookup "arn")).length

/-- The text `%s` prints for the instances in the error of
`dataSourceAwsSsoInstanceRead`; a stand-in for the rendering of the SDK. -/
def formatInstances (instances : List ssoadmin.InstanceMetadata) : String :=
  "[" ++ strings.Join (instances.map (fun i => aws.StringValue i.InstanceArn)) " " ++ "]"

open schema in
/-- `dataSourceAwsSsoInstanceRead(d, meta)`: the error returned (none for nil) and
the resource data afterwards. -/
def dataSourceAwsSsoInstanceRead (d : ResourceData) (meta : AWSClient) :
    Option String × ResourceData :=
  let conn := meta.ssoadminconn
  let instances : List ssoadmin.InstanceMetadata :=
    ssoadmin.eachPage
      (fun (instances : List ssoadmin.InstanceMetadata)
          (page : Option ssoadmin.ListInstancesOutput) (lastPage : Bool) =>
        match page with
        | some p => (if p.Instances.length != 0 then instances ++ p.Instances else instances,
            !lastPage)
        | none => (instances, !lastPage))
      [] conn.ListInstancesPages.1
  match conn.ListInstancesPages.2 with
  | some err => (some ("Error getting AWS SSO Instances: " ++ err.Error), d)
  | none =>
    match instances with
    | [] => (none, d.SetId "")
    | _ :: _ :: _ =>
      (some ("Found multiple AWS SSO Instances. Not sure which one to use. " ++
        formatInstances instances), d)
    | [inst] =>
      match dataSourceAwsSsoInstanceID (aws.StringValue inst.InstanceArn)
          (aws.StringValue inst.IdentityStoreId) with
      | (_, some idErr) => (some idErr, d)
      | (id, none) =>
        let d := d.SetId id
        let d := d.Set "arn" (.string (aws.StringValue inst.InstanceArn))
        let d := d.Set "identity_store_id" (.string (aws.StringValue inst.IdentityStoreId))
        (none, d)

open schema in
/-- `dataSourceAwsIdentityStoreUserRead(d, meta)`. -/
def dataSourceAwsIdentityStoreUserRead (d : ResourceData) (meta : AWSClient) :
    Option String × ResourceData :=
  let conn := meta.identitystoreconn
  let identityStoreID := d.GetString "identity_store_id"
  let userID := d.GetString "user_id"
  let userName := d.GetString "user_name"
  if userID != "" then
    match conn.DescribeUser ⟨some identityStoreID, some userID⟩ with
    | .error err => (some ("Error getting AWS Identity Store User: " ++ err.Error), d)
    | .ok resp =>
      let d := d.SetId userID
      let d := d.Set "user_name" (.string (aws.StringValue resp.UserName))
      (none, d)
  else if userName != "" then
    match conn.ListUsers ⟨some identityStoreID, [⟨some "UserName", some userName⟩]⟩ with
    | .error err => (some ("Error getting AWS Identity Store User: " ++ err.Error), d)
    | .ok none => (some "No AWS Identity Store User found", d)
    | .ok (some resp) =>
      match resp.Users with
      | [] => (some "No AWS Identity Store User found", d)
      | user :: _ =>
        let d := d.SetId (aws.StringValue user.UserId)
        let d := d.Set "user_id" (.string (aws.StringValue user.UserId))
        (none, d)
  else (some "One of user_id or user_name is required", d)

/-- The loop of `dataSourceAwsSsoPermissionSetRead` over the listed ARNs: each is
described in turn until one has the name; the result is the last ARN described
and the permission set found, if any, or the error of a failed call. -/
def describeUntilNamed (conn : ssoadmin.SSOAdmin) (instanceArn name : String) :
    String → List (Option String) → Except String (String × Option ssoadmin.PermissionSet)
  | permissionSetArn, [] => .ok (permissionSetArn, none)
  | _, permissionSetArns :: rest =>
    let permissionSetArn := aws.StringValue permissionSetArns
    match conn.DescribePermissionSet instanceArn permissionSetArn with
    | .error permissionSetErr =>
      .error ("Error getting AWS SSO Permission Set: " ++ permissionSetErr.Error)
    | .ok permissionSet =>
      if aws.StringValue permissionSet.Name == name then .ok (permissionSetArn, some permissionSet)
      else describeUntilNamed conn instanceArn name permissionSetArn rest

open schema keyvaluetags in
/-- `dataSourceAwsSsoPermissionSetRead(d, meta)`. -/
def dataSourceAwsSsoPermissionSetRead (d : ResourceData) (meta : AWSClient) :
    Option String × ResourceData :=
  let conn := meta.ssoadminconn
  let instanceArn := d.GetString "instance_arn"
  let name := d.GetString "name"
  match conn.ListPermissionSets instanceArn with
  | .error err => (some ("Error getting AWS SSO Permission Sets: " ++ err.Error), d)
  | .ok none => (none, d.SetId "")
  | .ok (some []) => (none, d.SetId "")
  | .ok (some (first :: more)) =>
    match describeUntilNamed conn instanceArn name "" (first :: more) with
    | .error e => (some e, d)
    | .ok (_, none) => (none, d.SetId "")
    | .ok (permissionSetArn, some permissionSet) =>
      match conn.GetInlinePolicyForPermissionSet instanceArn permissionSetArn with
      | .error inlinePolicyErr =>
        (some ("Error getting Inline Policy for AWS SSO Permission Set: " ++
          inlinePolicyErr.Error), d)
      | .ok inlinePolicy =>
        match conn.ListManagedPoliciesInPermissionSet instanceArn permissionSetArn with
        | .error managedPoliciesErr =>
          (some ("Error getting Managed Policies for AWS SSO Permission Set: " ++
            managedPoliciesErr.Error), d)
        | .ok attached =>
          let managedPolicyArns := attached.map (fun p => aws.StringValue p.Arn)
          match SsoListTags conn permissionSetArn instanceArn with
          | (_, some err) =>
            (some ("Error listing tags for ASW SSO Permission Set (" ++ permissionSetArn ++
              "): " ++ err.Error), d)
          | (tags, none) =>
            let d := d.SetId permissionSetArn
            let d := d.Set "arn" (.string permissionSetArn)
            let d := d.Set "created_date" (.string permissionSet.CreatedDate)
            let d := d.Set "instance_arn" (.string instanceArn)
            let d := d.Set "name" (.string (aws.StringValue permissionSet.Name))
            let d := d.Set "description" (.string (aws.StringValue permissionSet.Description))
            let d := d.Set "session_duration"
              (.string (aws.StringValue permissionSet.SessionDuration))
            let d := d.Set "relay_state" (.string (aws.StringValue permissionSet.RelayState))
            let d := d.Set "inline_policy" (.string (aws.StringValue inlinePolicy))
            let d := d.Set "managed_policy_arns" (.stringList managedPolicyArns)
            let d := d.Set "tags" (.stringMap (meta.IgnoreTagsConfig tags.IgnoreAws).Map)
            (none, d)

open schema keyvaluetags in
/-- `resourceAwsSsoPermissionSetRead(d, meta)`. -/
def resourceAwsSsoPermissionSetRead (d : ResourceData) (meta : AWSClient) :
    Option String × ResourceData :=
  let ssoadminconn := meta.ssoadminconn
  let permissionSetArn := d.Id
  let instanceArn := d.GetString "instance_arn"
  let name := d.GetString "name"
  match ssoadminconn.DescribePermissionSet instanceArn permissionSetArn with
  | .error permissionSetErr =>
    (some ("Error getting AWS SSO Permission Set: " ++ permissionSetErr.Error), d)
  | .ok described =>
    let permissionSet : Option ssoadmin.PermissionSet :=
      if aws.StringValue described.Name == name then some described else none
    match permissionSet with
    | none => (none, d.SetId "")
    | some permissionSet =>
      match ssoadminconn.GetInlinePolicyForPermissionSet instanceArn permissionSetArn with
      | .error inlinePolicyErr =>
        (some ("Error getting Inline Policy for AWS SSO Permission Set: " ++
          inlinePolicyErr.Error), d)
      | .ok inlinePolicy =>
        match ssoadminconn.ListManagedPoliciesInPermissionSet instanceArn permissionSetArn with
        | .error managedPoliciesErr =>
          (some ("Error getting Managed Policies for AWS SSO Permission Set: " ++
            managedPoliciesErr.Error), d)
        | .ok attached =>
          let managedPoliciesSet : schema.Set (List (String × String)) :=
            attached.foldl
              (fun set managedPolicy =>
                set.Add [("arn", aws.StringValue managedPolicy.Arn),
                  ("name", aws.StringValue managedPolicy.Name)])
              ⟨meta.permissionSetManagedPoliciesHash, []⟩
          match SsoListTags ssoadminconn permissionSetArn instanceArn with
          | (_, some err) =>
            (some ("error listing tags for AWS SSO Permission Set (" ++ permissionSetArn ++
              "): " ++ err.Error), d)
          | (tags, none) =>
            let d := d.Set "arn" (.string permissionSetArn)
            let d := d.Set "created_date" (.string permissionSet.CreatedDate)
            let d := d.Set "instance_arn" (.string instanceArn)
            let d := d.Set "name" (.string (aws.StringValue permissionSet.Name))
            let d := d.Set "description" (.string (aws.StringValue permissionSet.Description))
            let d := d.Set "session_duration"
              (.string (aws.StringValue permissionSet.SessionDuration))
            let d := d.Set "relay_state" (.string (aws.StringValue permissionSet.RelayState))
            let d := d.Set "inline_policy" (.string (aws.StringValue inlinePolicy))
            let d := d.Set "managed_policies" (.set managedPoliciesSet.List)
            let d := d.Set "tags" (.stringMap (meta.IgnoreTagsConfig tags.IgnoreAws).Map)
            (none, d)

/-- Modelled from the spec: `expandStringSet` of structure.go, a file of the
repository that is not among the sources; the spec does not describe it. After
its name and its use: the items of a set of strings, as string pointers. -/
def expandStringSet (configured : schema.Set String) : List (Option String) :=
  configured.List.map some

/-- The loop of `attachPoliciesToPermissionSet` over the managed policies. -/
def attachEachExpanded (instanceArn permissionSetArn : Option String) :
    ssoadmin.SSOAdmin → List (Option String) → Option String × ssoadmin.SSOAdmin
  | conn, [] => (none, conn)
  | conn, managedPolicyArn :: rest =>
    match conn.AttachManagedPolicyToPermissionSet
        ⟨instanceArn, managedPolicyArn, permissionSetArn⟩ with
    | (some managedPoliciesErr, conn1) =>
      (some ("Error attaching Managed Policy to AWS SSO Permission Set: " ++
        managedPoliciesErr.Error), conn1)
    | (none, conn1) => attachEachExpanded instanceArn permissionSetArn conn1 rest

open schema in
/-- `attachPoliciesToPermissionSet(ssoadminconn, d, instanceArn, permissionSetArn)`. -/
def attachPoliciesToPermissionSet (ssoadminconn : ssoadmin.SSOAdmin)
    (d : ResourceData) (instanceArn permissionSetArn : Option String) :
    Option String × ssoadmin.SSOAdmin :=
  let afterInline : Option String × ssoadmin.SSOAdmin :=
    if (d.GetOkString "inline_policy").2 then
      let inlinePolicy := some (d.GetOkString "inline_policy").1
      match ssoadminconn.PutInlinePolicyToPermissionSet
          ⟨inlinePolicy, instanceArn, permissionSetArn⟩ with
      | (some inlinePolicyErr, conn1) =>
        (some ("Error attaching IAM inline policy to AWS SSO Permission Set: " ++
          inlinePolicyErr.Error), conn1)
      | (none, conn1) => (none, conn1)
    else (none, ssoadminconn)
  match afterInline with
  | (some e, conn1) => (some e, conn1)
  | (none, conn1) =>
    let v := Value.asStringSet (d.attrs.lookup "managed_policies")
    if v.Len > 0 then
      let managedPolicies := expandStringSet v
      attachEachExpanded instanceArn permissionSetArn conn1 managedPolicies
    else (none, conn1)

open schema keyvaluetags in
/-- `resourceAwsSsoPermissionSetCreate(d, meta)`: the error returned, the resource
data and the client afterwards. -/
def resourceAwsSsoPermissionSetCreate (d : ResourceData)
    (meta : AWSClient) : Option String × ResourceData × ssoadmin.SSOAdmin :=
  let ssoadminconn := meta.ssoadminconn
  let instanceArn : Option String := some (d.GetString "instance_arn")
  let params : ssoadmin.CreatePermissionSetInput :=
    { InstanceArn := instanceArn
      Name := some (d.GetString "name")
      Description :=
        if (d.GetOkString "description").2 then some (d.GetOkString "description").1 else none
      RelayState :=
        if (d.GetOkString "relay_state").2 then some (d.GetOkString "relay_state").1 else none
      SessionDuration :=
        if (d.GetOkString "session_duration").2 then some (d.GetOkString "session_duration").1
        else none
      Tags :=
        if (Value.asMap (d.attrs.lookup "tags")).length > 0 then
          (New (Value.asMap (d.attrs.lookup "tags"))).IgnoreAws.SsoTags
        else [] }
  match ssoadminconn.CreatePermissionSet params with
  | (.error createPermissionSetErr, conn1) =>
    (some ("Error creating AWS SSO Permission Set: " ++ createPermissionSetErr.Error), d, conn1)
  | (.ok created, conn1) =>
    let permissionSetArn := created.PermissionSetArn
    let d := d.SetId (aws.StringValue permissionSetArn)
    match attachPoliciesToPermissionSet conn1 d permissionSetArn instanceArn with
    | (some attachPoliciesErr, conn2) => (some attachPoliciesErr, d, conn2)
    | (none, conn2) =>
      let read := resourceAwsSsoPermissionSetRead d { meta with ssoadminconn := conn2 }
      (read.1, read.2, conn2)

open schema keyvaluetags in
/-- The first part of `resourceAwsSsoPermissionSetUpdate`, up to the managed
policies: the attributes of the permission set, the tags and the inline
policy. -/
def updateBeforeManagedPolicies (old : List (String × Value)) (d : ResourceData)
    (meta : AWSClient) : Option String × ssoadmin.SSOAdmin :=
  let ssoadminconn := meta.ssoadminconn
  let permissionSetArn := d.Id
  let instanceArn := d.GetString "instance_arn"
  let afterUpdate : Option String × ssoadmin.SSOAdmin :=
    if d.HasChanges old ["description", "relay_state", "session_duration"] then
      match ssoadminconn.UpdatePermissionSet
          ⟨some permissionSetArn, some instanceArn, some (d.GetString "description"),
            some (d.GetString "relay_state"), some (d.GetString "session_duration")⟩ with
      | (some permissionSetErr, conn1) =>
        (some ("error updating AWS SSO Permission Set: " ++ permissionSetErr.Error), conn1)
      | (none, conn1) => (none, conn1)
    else (none, ssoadminconn)
  match afterUpdate with
  | (some e, conn1) => (some e, conn1)
  | (none, conn1) =>
    let afterTags : Option String × ssoadmin.SSOAdmin :=
      if d.HasChange old "tags" then
        match SsoUpdateTags conn1 (d.GetString "arn") (d.GetString "instance_arn")
            (Value.asMap (old.lookup "tags")) (Value.asMap (d.attrs.lookup "tags")) with
        | (some updateTagsErr, conn2) => (some ("error updating tags: " ++ updateTagsErr), conn2)
        | (none, conn2) => (none, conn2)
      else (none, conn1)
    match afterTags with
    | (some e, conn2) => (some e, conn2)
    | (none, conn2) =>
      if (d.GetOkString "inline_policy").2 then
        let inlinePolicy := some (d.GetOkString "inline_policy").1
        match conn2.PutInlinePolicyToPermissionSet
            ⟨inlinePolicy, some instanceArn, some permissionSetArn⟩ with
        | (some inlinePolicyErr, conn3) =>
          (some ("Error attaching IAM inline policy to AWS SSO Permission Set: " ++
            inlinePolicyErr.Error), conn3)
        | (none, conn3) => (none, conn3)
      else if d.HasChange old "inline_policy" then
        match conn2.DeleteInlinePolicyFromPermissionSet
            ⟨some instanceArn, some permissionSetArn⟩ with
        | (some inlinePolicyErr, conn3) =>
          (some ("Error deleting IAM inline policy from AWS SSO Permission Set: " ++
            inlinePolicyErr.Error), conn3)
        | (none, conn3) => (none, conn3)
      else (none, conn2)

/-- The loop of `resourceAwsSsoPermissionSetUpdate` over the removal list. -/
def detachEach (instanceArn permissionSetArn : String) :
    ssoadmin.SSOAdmin → List String → Option String × ssoadmin.SSOAdmin
  | conn, [] => (none, conn)
  | conn, v :: rest =>
    match conn.DetachManagedPolicyFromPermissionSet
        ⟨some instanceArn, some v, some permissionSetArn⟩ with
    | (some managedPoliciesErr, conn1) =>
      (some ("Error detaching Managed Policy from AWS SSO Permission Set: " ++
        managedPoliciesErr.Error), conn1)
    | (none, conn1) => detachEach instanceArn permissionSetArn conn1 rest

/-- The loop of `resourceAwsSsoPermissionSetUpdate` over the addition list. -/
def attachEach (instanceArn permissionSetArn : String) :
    ssoadmin.SSOAdmin → List String → Option String × ssoadmin.SSOAdmin
  | conn, [] => (none, conn)
  | conn, v :: rest =>
    match conn.AttachManagedPolicyToPermissionSet
        ⟨some instanceArn, some v, some permissionSetArn⟩ with
    | (some managedPoliciesErr, conn1) =>
      (some ("Error attaching Managed Policy to AWS SSO Permission Set: " ++
        managedPoliciesErr.Error), conn1)
    | (none, conn1) => attachEach instanceArn permissionSetArn conn1 rest

open schema in
/-- The managed policies part of `resourceAwsSsoPermissionSetUpdate`, run on the
client the first part leaves. -/
def updateManagedPolicies (old : List (String × Value))
    (d : ResourceData) (conn : ssoadmin.SSOAdmin) : Option String × ssoadmin.SSOAdmin :=
  let permissionSetArn := d.Id
  let instanceArn := d.GetString "instance_arn"
  if d.HasChange old "managed_policies" then
    let os := Value.asStringSet (old.lookup "managed_policies")
    let ns := Value.asStringSet (d.attrs.lookup "managed_policies")
    let removalList := os.Difference ns
    match detachEach instanceArn permissionSetArn conn removalList.List with
    | (some e, conn1) => (some e, conn1)
    | (none, conn1) =>
      let additionList := ns.Difference os
      attachEach instanceArn permissionSetArn conn1 additionList.List
  else (none, conn)

open schema in
/-- `resourceAwsSsoPermissionSetUpdate(d, meta)`; `old` holds the attributes of
the prior state, which the SDK keeps in `d` beside the new ones. The result is
the error returned, the resource data and the client afterwards. -/
def resourceAwsSsoPermissionSetUpdate (old : List (String × Value))
    (d : ResourceData) (meta : AWSClient) : Option String × ResourceData × ssoadmin.SSOAdmin :=
  match updateBeforeManagedPolicies old d meta with
  | (some e, conn1) => (some e, d, conn1)
  | (none, conn1) =>
    match updateManagedPolicies old d conn1 with
    | (some e, conn2) => (some e, d, conn2)
    | (none, conn2) =>
      let read := resourceAwsSsoPermissionSetRead d { meta with ssoadminconn := conn2 }
      (read.1, read.2, conn2)

/-- The requests of a list that are sent when the first one that fails ends the
run: those before it, and it. -/
def upToFirstFailure (fails : ssoadmin.Request → Bool) : List ssoadmin.Request →
    List ssoadmin.Request
  | [] => []
  | r :: rest => if fails r then [r] else r :: upToFirstFailure fails rest

/-- The key under which a set of strings of the SDK keeps the string. -/
def keyOf (v : String) : String :=
  toString (schema.HashSchema v).natAbs

/-- The strings in the order in which the SDK lists a set of them: by key. -/
def inKeyOrder (items : List String) : List String :=
  (schema.byKey (items.map (fun v => (keyOf v, v)))).map Prod.snd

/-- The requests on managed policies that an update from the old set `O` to the
new set `N` calls for: one detachment for every ARN of `O` that is not in `N`,
then one attachment for every ARN of `N` that is not in `O`, each group in the
order of the keys. -/
def plannedPolicyRequests (instanceArn permissionSetArn : String) (O N : List String) :
    List ssoadmin.Request :=
  (inKeyOrder (O.filter (fun v => !N.contains v))).map
      (fun v => ssoadmin.Request.DetachManagedPolicyFromPermissionSet
        ⟨some instanceArn, some v, some permissionSetArn⟩) ++
    (inKeyOrder (N.filter (fun v => !O.contains v))).map
      (fun v => ssoadmin.Request.AttachManagedPolicyToPermissionSet
        ⟨some instanceArn, some v, some permissionSetArn⟩)

/-- All the instances of a paged listing: the pages concatenated. -/
def allInstances : List (Option ssoadmin.ListInstancesOutput) → List ssoadmin.InstanceMetadata
  | [] => []
  | none :: rest => allInstances rest
  | some page :: rest => page.Instances ++ allInstances rest

/-! ## Lemmas on splitting -/

namespace strings

theorem span_of_forall_ne (sep : Char) (l : List Char) (h : ∀ c ∈ l, c ≠ sep) :
    l.span (fun c => c != sep) = (l, []) := by
  rw [List.span_eq_take_drop]
  have hp : ∀ x ∈ l, (fun c => c != sep) x = true := by
    intro x hx; simpa using h x hx
  rw [List.takeWhile_eq_self_iff.2 hp, List.dropWhile_eq_nil_iff.2 hp]

theorem span_append_sep (sep : Char) (l r : List Char) (h : ∀ c ∈ l, c ≠ sep) :
    (l ++ sep :: r).span (fun c => c != sep) = (l, sep :: r) := by
  induction l with
  | nil => simp [List.span, List.span.loop]
  | cons a l ih =>
    have ha : a ≠ sep := h a (List.mem_cons_self _ _)
    have ih2 := ih (fun c hc => h c (List.mem_cons_of_mem _ hc))
    rw [List.span_eq_take_drop] at ih2 ⊢
    simp only [Prod.mk.injEq] at ih2
    have hb : (a != sep) = true := by simpa using ha
    rw [List.cons_append, List.takeWhile_cons, List.dropWhile_cons]
    simp only [hb, if_true, ih2.1, ih2.2]

theorem splitLoop_append_sep (sep : Char) (n : Nat) (l r : List Char)
    (h : ∀ c ∈ l, c ≠ sep) :
    splitLoop sep (n + 1) (l ++ sep :: r) = l :: splitLoop sep n r := by
  simp only [splitLoop, span_append_sep sep l r h]

/-- What `span` returns: the separator-free prefix and the rest, which is empty
or starts with the separator. -/
theorem span_cases (sep : Char) (s : List Char) :
    (∃ pre, s.span (fun c => c != sep) = (pre, []) ∧ s = pre ∧ ∀ c ∈ pre, c ≠ sep) ∨
    (∃ pre rest, s.span (fun c => c != sep) = (pre, sep :: rest) ∧ s = pre ++ sep :: rest ∧
      ∀ c ∈ pre, c ≠ sep) := by
  induction s with
  | nil => left; exact ⟨[], by simp [List.span, List.span.loop], rfl, by simp⟩
  | cons a s ih =>
    by_cases ha : a = sep
    · right
      subst ha
      exact ⟨[], s, by simp [List.span, List.span.loop], rfl, by simp⟩
    · rcases ih with ⟨pre, _, hs, hpre⟩ | ⟨pre, rest, _, hs, hpre⟩
      · left
        have hall : ∀ c ∈ a :: pre, c ≠ sep := by
          intro c hc
          rcases List.mem_cons.1 hc with rfl | hc
          · exact ha
          · exact hpre c hc
        exact ⟨a :: pre, by rw [hs]; exact span_of_forall_ne sep _ hall, by rw [hs], hall⟩
      · right
        have hall : ∀ c ∈ a :: pre, c ≠ sep := by
          intro c hc
          rcases List.mem_cons.1 hc with rfl | hc
          · exact ha
          · exact hpre c hc
        refine ⟨a :: pre, rest, ?_, by rw [hs]; rfl, hall⟩
        rw [hs]
        exact span_append_sep sep (a :: pre) rest hall

theorem count_of_forall_ne (sep : Char) (l : List Char) (h : ∀ c ∈ l, c ≠ sep) :
    l.count sep = 0 :=
  List.count_eq_zero.2 (fun hm => h sep hm rfl)

/-- The loop yields one piece more than the separators it cut at. -/
theorem length_splitLoop (sep : Char) (n : Nat) (s : List Char) :
    (splitLoop sep n s).length = min n (s.count sep) + 1 := by
  induction n generalizing s with
  | zero => simp [splitLoop]
  | succ n ih =>
    rcases span_cases sep s with ⟨pre, hsp, hs, hpre⟩ | ⟨pre, rest, hsp, hs, hpre⟩
    · subst hs
      simp only [splitLoop, hsp, count_of_forall_ne sep _ hpre, List.length_singleton]
      omega
    · subst hs
      simp only [splitLoop, hsp, List.length_cons, ih, List.count_append,
        count_of_forall_ne sep _ hpre, List.count_cons_self, Nat.zero_add]
      omega

/-- When the loop may cut at every separator, no piece contains one. -/
theorem splitLoop_pieces (sep : Char) (n : Nat) (s : List Char) (hn : s.count sep ≤ n) :
    ∀ p ∈ splitLoop sep n s, ∀ c ∈ p, c ≠ sep := by
  induction n generalizing s with
  | zero =>
    intro p hp c hc hcs
    simp only [splitLoop, List.mem_singleton] at hp
    rw [hp, hcs] at hc
    have hz : s.count sep = 0 := by omega
    exact List.count_eq_zero.1 hz hc
  | succ n ih =>
    rcases span_cases sep s with ⟨pre, hsp, hs, hpre⟩ | ⟨pre, rest, hsp, hs, hpre⟩
    · subst hs
      intro p hp
      simp only [splitLoop, hsp, List.mem_singleton] at hp
      subst hp
      exact hpre
    · subst hs
      have hrest : rest.count sep ≤ n := by
        simp only [List.count_append, count_of_forall_ne sep _ hpre, List.count_cons_self,
          Nat.zero_add] at hn
        omega
      intro p hp
      simp only [splitLoop, hsp, List.mem_cons] at hp
      rcases hp with rfl | hp
      · exact hpre
      · exact ih rest hrest p hp

theorem Split_pieces (s : String) (sep : Char) :
    ∀ p ∈ Split s sep, ∀ c ∈ p.data, c ≠ sep := by
  intro p hp
  have h : ¬ ((s.data.count sep : Int) + 1 < 0) := by omega
  simp only [Split, genSplit, List.mem_map] at hp
  obtain ⟨q, hq, rfl⟩ := hp
  rw [if_neg (by decide), if_pos (by decide)] at hq
  have hm : ((s.data.count sep : Int) + 1).toNat - 1 = s.data.count sep := by omega
  rw [hm] at hq
  exact splitLoop_pieces sep _ s.data (le_refl _) q hq

theorem length_Split (s : String) (sep : Char) :
    (Split s sep).length = s.data.count sep + 1 := by
  have h : ¬ ((s.data.count sep : Int) + 1 < 0) := by omega
  simp [Split, genSplit, length_splitLoop]

theorem length_SplitN_six (s : String) (sep : Char) :
    (SplitN s sep 6).length = min 5 (s.data.count sep) + 1 := by
  simp [SplitN, genSplit, length_splitLoop]

theorem Split_append_sep (a b : String) (sep : Char) (ha : ∀ c ∈ a.data, c ≠ sep)
    (hb : ∀ c ∈ b.data, c ≠ sep) :
    Split (a ++ String.singleton sep ++ b) sep = [a, b] := by
  have hcount : (a.data ++ sep :: b.data).count sep = 1 := by
    simp [List.count_append, count_of_forall_ne sep _ ha, count_of_forall_ne sep _ hb]
  simp [Split, genSplit, String.singleton, hcount, splitLoop_append_sep sep 0 _ _ ha,
    splitLoop]

end strings

namespace arn

theorem SplitN_sections (P svc reg acct R : String)
    (hP : ∀ c ∈ P.data, c ≠ ':') (hsvc : ∀ c ∈ svc.data, c ≠ ':')
    (hreg : ∀ c ∈ reg.data, c ≠ ':') (hacct : ∀ c ∈ acct.data, c ≠ ':') :
    strings.SplitN ("arn:" ++ P ++ ":" ++ svc ++ ":" ++ reg ++ ":" ++ acct ++ ":" ++ R) ':' 6
      = ["arn", P, svc, reg, acct, R] := by
  have hd : ("arn:" ++ P ++ ":" ++ svc ++ ":" ++ reg ++ ":" ++ acct ++ ":" ++ R).data =
      ['a', 'r', 'n'] ++ ':' :: (P.data ++ ':' :: (svc.data ++ ':' :: (reg.data ++ ':' ::
        (acct.data ++ ':' :: R.data)))) := by
    simp [String.data_append]
  have harn : ∀ c ∈ ['a', 'r', 'n'], c ≠ ':' := by decide
  have h6 : ((6 : Int).toNat - 1) = 5 := by decide
  simp only [strings.SplitN, strings.genSplit, hd]
  rw [if_neg (by decide), if_neg (by decide), h6,
    strings.splitLoop_append_sep _ _ _ _ harn, strings.splitLoop_append_sep _ _ _ _ hP,
    strings.splitLoop_append_sep _ _ _ _ hsvc, strings.splitLoop_append_sep _ _ _ _ hreg,
    strings.splitLoop_append_sep _ _ _ _ hacct]
  rfl

/-- An ARN written section by section parses into those sections. -/
theorem Parse_sections (P svc reg acct R : String)
    (hP : ∀ c ∈ P.data, c ≠ ':') (hsvc : ∀ c ∈ svc.data, c ≠ ':')
    (hreg : ∀ c ∈ reg.data, c ≠ ':') (hacct : ∀ c ∈ acct.data, c ≠ ':') :
    Parse ("arn:" ++ P ++ ":" ++ svc ++ ":" ++ reg ++ ":" ++ acct ++ ":" ++ R)
      = .ok ⟨P, svc, reg, acct, R⟩ := by
  have hpre : strings.HasPrefix
      ("arn:" ++ P ++ ":" ++ svc ++ ":" ++ reg ++ ":" ++ acct ++ ":" ++ R) arnPrefix = true := by
    simp [strings.HasPrefix, arnPrefix, String.data_append, List.isPrefixOf]
  simp only [Parse, hpre, arnSections]
  have := SplitN_sections P svc reg acct R hP hsvc hreg hacct
  simp only [Nat.cast_ofNat] at *
  rw [this]
  rfl

end arn

/-! ## Lemmas on `dataSourceAwsSsoInstanceID` -/

theorem instanceID_of_parse_error (instanceArn S e : String)
    (h : arn.Parse instanceArn = .error e) :
    dataSourceAwsSsoInstanceID instanceArn S = ("", some e) := by
  simp [dataSourceAwsSsoInstanceID, h]

theorem instanceID_of_parts (instanceArn S id : String) (a : arn.ARN)
    (h : arn.Parse instanceArn = .ok a)
    (hs : strings.Split a.Resource '/' = ["instance", id]) (hid : id ≠ "") :
    dataSourceAwsSsoInstanceID instanceArn S = (id ++ "/" ++ S, none) := by
  simp [dataSourceAwsSsoInstanceID, h, hs, hid, strings.Join]

theorem instanceID_of_bad_parts (instanceArn S : String) (a : arn.ARN)
    (h : arn.Parse instanceArn = .ok a)
    (hs : ¬ ∃ id, id ≠ "" ∧ strings.Split a.Resource '/' = ["instance", id]) :
    dataSourceAwsSsoInstanceID instanceArn S = ("", some (unexpectedArnFormat instanceArn)) := by
  simp only [dataSourceAwsSsoInstanceID, h]
  rw [if_pos]
  by_contra hc
  apply hs
  simp only [Bool.or_eq_true, bne_iff_ne, ne_eq, beq_iff_eq, not_or, not_not] at hc
  obtain ⟨⟨hlen, h0⟩, h1⟩ := hc
  match hl : strings.Split a.Resource '/' with
  | [] => simp [hl] at hlen
  | [_] => simp [hl] at hlen
  | [x, y] =>
    simp only [hl, List.getElem!_cons_zero] at h0
    refine ⟨y, ?_, by rw [h0]⟩
    intro hy
    apply h1
    simp [hl, hy]
  | _ :: _ :: _ :: _ => simp [hl] at hlen

theorem instanceArn_eq_sections (P ID : String) :
    "arn:" ++ P ++ ":sso:::instance/" ++ ID
      = "arn:" ++ P ++ ":" ++ "sso" ++ ":" ++ "" ++ ":" ++ "" ++ ":" ++ ("instance/" ++ ID) := by
  apply String.ext
  simp [String.data_append]

theorem instance_slash_eq (ID : String) :
    "instance/" ++ ID = "instance" ++ String.singleton '/' ++ ID := by
  apply String.ext
  simp [String.data_append, String.singleton]

/-- The identifier built from an ARN of the documented shape. -/
theorem instanceID_wellFormed (P ID S : String) (hP : ∀ c ∈ P.data, c ≠ ':')
    (hne : ID ≠ "") (hID : ∀ c ∈ ID.data, c ≠ '/') :
    dataSourceAwsSsoInstanceID ("arn:" ++ P ++ ":sso:::instance/" ++ ID) S
      = (ID ++ "/" ++ S, none) := by
  have hparse := arn.Parse_sections P "sso" "" "" ("instance/" ++ ID) hP (by decide)
    (by decide) (by decide)
  rw [← instanceArn_eq_sections] at hparse
  refine instanceID_of_parts _ S ID _ hparse ?_ hne
  show strings.Split ("instance/" ++ ID) '/' = ["instance", ID]
  rw [instance_slash_eq]
  exact strings.Split_append_sep "instance" ID '/' (by decide) hID

theorem Parse_error_of_few_sections (s : String)
    (h : (strings.Split s ':').length < 6) : ∃ e, arn.Parse s = .error e := by
  rw [strings.length_Split] at h
  have hlen : (strings.SplitN s ':' 6).length ≠ 6 := by
    rw [strings.length_SplitN_six]; omega
  unfold arn.Parse
  by_cases hp : strings.HasPrefix s arn.arnPrefix = true
  · simp only [hp, Bool.not_true, Bool.false_eq_true, if_false, arn.arnSections, Nat.cast_ofNat]
    rcases hl : strings.SplitN s ':' 6 with
      _ | ⟨a, _ | ⟨b, _ | ⟨c, _ | ⟨d, _ | ⟨e, _ | ⟨f, _ | ⟨g, l⟩⟩⟩⟩⟩⟩⟩
    all_goals first
      | exact ⟨_, rfl⟩
      | (exfalso; rw [hl] at hlen; simp at hlen)
  · exact ⟨arn.invalidPrefix, by simp [hp]⟩

/-- Success of `dataSourceAwsSsoInstanceID` read backwards. -/
theorem instanceID_success (instanceArn S : String)
    (h : (dataSourceAwsSsoInstanceID instanceArn S).2 = none) :
    ∃ a id, arn.Parse instanceArn = .ok a ∧ strings.Split a.Resource '/' = ["instance", id] ∧
      id ≠ "" ∧ dataSourceAwsSsoInstanceID instanceArn S = (id ++ "/" ++ S, none) := by
  match hp : arn.Parse instanceArn with
  | .error e => rw [instanceID_of_parse_error _ _ _ hp] at h; simp at h
  | .ok a =>
    by_cases hs : ∃ id, id ≠ "" ∧ strings.Split a.Resource '/' = ["instance", id]
    · obtain ⟨id, hid, hs⟩ := hs
      exact ⟨a, id, rfl, hs, hid, instanceID_of_parts _ _ _ _ hp hs hid⟩
    · rw [instanceID_of_bad_parts _ _ _ hp hs] at h; simp at h

/-! ## The composite identifier: claims -/

/-- C1: for a partition without a colon, a non-empty instance id without a slash
and any identity store id, `dataSourceAwsSsoInstanceID` applied to
`arn:P:sso:::instance/ID` succeeds and returns `ID/S`. -/
theorem C1_instanceID_of_documented_arn (P ID S : String)
    (hP : ∀ c ∈ P.data, c ≠ ':') (hne : ID ≠ "") (hID : ∀ c ∈ ID.data, c ≠ '/') :
    dataSourceAwsSsoInstanceID ("arn:" ++ P ++ ":sso:::instance/" ++ ID) S
      = (ID ++ "/" ++ S, none) :=
  instanceID_wellFormed P ID S hP hne hID

theorem C1_instanceID_of_documented_arn_witness :
    dataSourceAwsSsoInstanceID ("arn:" ++ "aws" ++ ":sso:::instance/" ++ "ins-XXXX") "d-1234"
      = ("ins-XXXX" ++ "/" ++ "d-1234", none) :=
  C1_instanceID_of_documented_arn "aws" "ins-XXXX" "d-1234" (by decide) (by decide) (by decide)

/-- C2: `dataSourceAwsSsoInstanceID` returns the empty id together with an error
whenever the ARN lacks the `arn:` prefix, or has fewer than six sections between
colons, or its resource section is not `instance/` followed by a non-empty id
without a further slash; the identity store id plays no part. -/
theorem C2_instanceID_rejects_malformed (instanceArn S : String)
    (h : strings.HasPrefix instanceArn "arn:" = false ∨
      (strings.Split instanceArn ':').length < 6 ∨
      ∃ a, arn.Parse instanceArn = .ok a ∧
        ¬ ∃ id, id ≠ "" ∧ strings.Split a.Resource '/' = ["instance", id]) :
    ∃ err, dataSourceAwsSsoInstanceID instanceArn S = ("", some err) := by
  rcases h with h | h | ⟨a, ha, hs⟩
  · refine ⟨arn.invalidPrefix, instanceID_of_parse_error _ _ _ ?_⟩
    have h2 : strings.HasPrefix instanceArn arn.arnPrefix = false := h
    simp [arn.Parse, h2]
  · obtain ⟨e, he⟩ := Parse_error_of_few_sections instanceArn h
    exact ⟨e, instanceID_of_parse_error _ _ _ he⟩
  · exact ⟨_, instanceID_of_bad_parts _ _ a ha hs⟩

theorem C2_instanceID_rejects_malformed_witness :
    ∃ err, dataSourceAwsSsoInstanceID "arn:aws:sso:::permissionSet/ins-1" "d-1" = ("", some err) :=
  C2_instanceID_rejects_malformed "arn:aws:sso:::permissionSet/ins-1" "d-1"
    (Or.inr (Or.inr ⟨⟨"aws", "sso", "", "", "permissionSet/ins-1"⟩, rfl, by
      rintro ⟨id, _, hs⟩
      have h0 : strings.Split "permissionSet/ins-1" '/' = ["permissionSet", "ins-1"] := by decide
      rw [show (arn.ARN.mk "aws" "sso" "" "" "permissionSet/ins-1").Resource
        = "permissionSet/ins-1" from rfl, h0] at hs
      exact absurd (List.cons.inj hs).1 (by decide)⟩))

/-- C3: composite-id round trip. For non-empty `ID` and `S` without a slash, the
identifier built from `arn:aws:sso:::instance/ID` and `S` splits at the slash into
exactly `[ID, S]`. -/
theorem C3_instanceID_round_trip (ID S : String) (hne : ID ≠ "") (_hS : S ≠ "")
    (hID : ∀ c ∈ ID.data, c ≠ '/') (hSs : ∀ c ∈ S.data, c ≠ '/') :
    strings.Split (dataSourceAwsSsoInstanceID ("arn:aws:sso:::instance/" ++ ID) S).1 '/'
      = [ID, S] := by
  have h := instanceID_wellFormed "aws" ID S (by decide) hne hID
  have he : "arn:" ++ "aws" ++ ":sso:::instance/" ++ ID = "arn:aws:sso:::instance/" ++ ID := by
    apply String.ext; simp [String.data_append]
  rw [he] at h
  rw [h]
  exact strings.Split_append_sep ID S '/' hID hSs

theorem C3_instanceID_round_trip_witness :
    strings.Split (dataSourceAwsSsoInstanceID ("arn:aws:sso:::instance/" ++ "ins-1") "d-9").1 '/'
      = ["ins-1", "d-9"] :=
  C3_instanceID_round_trip "ins-1" "d-9" (by decide) (by decide) (by decide) (by decide)

/-- C4, counterexample: an empty identity store id is accepted, and the second
part of the identifier returned is then empty. -/
theorem C4_empty_identityStoreId_accepted :
    dataSourceAwsSsoInstanceID "arn:aws:sso:::instance/ins-1" "" = ("ins-1/", none) ∧
      strings.Split "ins-1/" '/' = ["ins-1", ""] := by
  decide

/-- C4, as amended: when `dataSourceAwsSsoInstanceID` succeeds the identifier is
`X/identityStoreId` where `X`, the instance id of the ARN, is non-empty and has
no slash; the identity store id is taken as given, so for one without a slash
the identifier splits into exactly `[X, identityStoreId]`. -/
theorem C4_instanceID_first_part_nonempty (instanceArn S : String)
    (h : (dataSourceAwsSsoInstanceID instanceArn S).2 = none) :
    ∃ X, X ≠ "" ∧ (∀ c ∈ X.data, c ≠ '/') ∧
      (dataSourceAwsSsoInstanceID instanceArn S).1 = X ++ "/" ++ S ∧
      ((∀ c ∈ S.data, c ≠ '/') →
        strings.Split (dataSourceAwsSsoInstanceID instanceArn S).1 '/' = [X, S]) := by
  obtain ⟨a, id, _, hs, hid, hr⟩ := instanceID_success instanceArn S h
  have hmem : id ∈ strings.Split a.Resource '/' := by rw [hs]; simp
  have hfree := strings.Split_pieces a.Resource '/' id hmem
  refine ⟨id, hid, hfree, by rw [hr], ?_⟩
  intro hS
  rw [hr]
  exact strings.Split_append_sep id S '/' hfree hS

theorem C4_instanceID_first_part_nonempty_witness :
    ∃ X, X ≠ "" ∧ (∀ c ∈ X.data, c ≠ '/') ∧
      (dataSourceAwsSsoInstanceID "arn:aws:sso:::instance/ins-1" "d-9").1 = X ++ "/" ++ "d-9" ∧
      ((∀ c ∈ ("d-9" : String).data, c ≠ '/') →
        strings.Split (dataSourceAwsSsoInstanceID "arn:aws:sso:::instance/ins-1" "d-9").1 '/'
          = [X, "d-9"]) :=
  C4_instanceID_first_part_nonempty "arn:aws:sso:::instance/ins-1" "d-9" (by decide)

/-! ## Lemmas on tag sets -/

namespace keyvaluetags

open ssoadmin

theorem lookup_filter_key {β : Type} (p : String → Bool) (l : List (String × β)) (k : String) :
    (l.filter (fun kv => p kv.1)).lookup k = if p k then l.lookup k else none := by
  induction l with
  | nil => simp
  | cons x l ih =>
    obtain ⟨a, b⟩ := x
    by_cases hk : k = a
    · subst hk
      by_cases hp : p k = true
      · simp [List.filter_cons, hp, List.lookup_cons]
      · simp only [Bool.not_eq_true] at hp
        simp [List.filter_cons, hp, ih]
    · have hne : (k == a) = false := by simpa using hk
      by_cases hp : p a = true
      · simp [List.filter_cons, hp, List.lookup_cons, hne, ih]
      · simp only [Bool.not_eq_true] at hp
        simp [List.filter_cons, hp, List.lookup_cons, hne, ih]

theorem lookup_eq_none_of_not_mem_keys (l : List (String × String)) (k : String)
    (h : k ∉ l.map Prod.fst) : l.lookup k = none := by
  induction l with
  | nil => rfl
  | cons x l ih =>
    obtain ⟨a, b⟩ := x
    simp only [List.map_cons, List.mem_cons, not_or] at h
    have hne : (k == a) = false := by simpa using h.1
    simp [List.lookup_cons, hne, ih h.2]

theorem lookup_isSome_of_mem_keys (l : List (String × String)) (k : String)
    (h : k ∈ l.map Prod.fst) : ∃ v, l.lookup k = some v := by
  induction l with
  | nil => simp at h
  | cons x l ih =>
    obtain ⟨a, b⟩ := x
    by_cases hk : k = a
    · subst hk; exact ⟨b, by simp [List.lookup_cons]⟩
    · have hne : (k == a) = false := by simpa using hk
      simp only [List.map_cons, List.mem_cons, hk, false_or] at h
      obtain ⟨v, hv⟩ := ih h
      exact ⟨v, by simp [List.lookup_cons, hne, hv]⟩

theorem keysUnique_filter (q : String × String → Bool) (l : KeyValueTags)
    (h : KeysUnique l) : KeysUnique (l.filter q) :=
  List.Nodup.sublist (List.Sublist.map Prod.fst (List.filter_sublist l)) h

/-- In a list with distinct keys, filtering on pairs keeps or drops the one
entry of a key. -/
theorem lookup_filter_pair (q : String × String → Bool) (l : KeyValueTags)
    (h : KeysUnique l) (k : String) :
    (l.filter q).lookup k =
      match l.lookup k with
      | some v => if q (k, v) then some v else none
      | none => none := by
  induction l with
  | nil => simp
  | cons x l ih =>
    obtain ⟨a, b⟩ := x
    have hu : a ∉ l.map Prod.fst ∧ KeysUnique l := by
      simpa [KeysUnique] using h
    by_cases hk : k = a
    · subst hk
      by_cases hq : q (k, b) = true
      · simp [List.filter_cons, hq, List.lookup_cons]
      · simp only [Bool.not_eq_true] at hq
        have hnone : (l.filter q).lookup k = none := by
          apply lookup_eq_none_of_not_mem_keys
          intro hm
          exact hu.1 ((List.Sublist.map Prod.fst (List.filter_sublist l)).subset hm)
        simp [List.filter_cons, hq, List.lookup_cons, hnone]
    · have hne : (k == a) = false := by simpa using hk
      by_cases hq : q (a, b) = true
      · simp [List.filter_cons, hq, List.lookup_cons, hne, ih hu.2]
      · simp only [Bool.not_eq_true] at hq
        simp [List.filter_cons, hq, List.lookup_cons, hne, ih hu.2]

theorem SsoTags_eq_map (tags : KeyValueTags) :
    tags.SsoTags = tags.map (fun kv => (⟨some kv.1, some kv.2⟩ : Tag)) := by
  have h : ∀ (l : List (String × String)) (acc : List Tag),
      l.foldl (fun result kv => result ++ [(⟨some kv.1, some kv.2⟩ : Tag)]) acc
        = acc ++ l.map (fun kv => (⟨some kv.1, some kv.2⟩ : Tag)) := by
    intro l
    induction l with
    | nil => intro acc; simp
    | cons x l ih => intro acc; simp [ih]
  simpa [KeyValueTags.SsoTags, KeyValueTags.Map] using h tags []

/-- Writing tags with distinct keys: afterwards a key holds the value written
for it, or what it held before when none was written. -/
theorem lookup_foldl_putTag (l : KeyValueTags) (h : KeysUnique l)
    (base : List (String × String)) (k : String) :
    (l.SsoTags.foldl putTag base).lookup k =
      match l.lookup k with
      | some v => some v
      | none => base.lookup k := by
  rw [SsoTags_eq_map]
  induction l generalizing base with
  | nil => simp
  | cons x l ih =>
    obtain ⟨a, b⟩ := x
    have hu : a ∉ l.map Prod.fst ∧ KeysUnique l := by
      simpa [KeysUnique] using h
    simp only [List.map_cons, List.foldl_cons]
    rw [ih hu.2]
    by_cases hk : k = a
    · subst hk
      rw [lookup_eq_none_of_not_mem_keys l k hu.1]
      simp [putTag, aws.StringValue, List.lookup_cons]
    · have hne : (k == a) = false := by simpa using hk
      have hb : (putTag base ⟨some a, some b⟩).lookup k = base.lookup k := by
        simp only [putTag, aws.StringValue, List.lookup_cons, hne]
        rw [lookup_filter_key (fun key => key != a) base k]
        simp [hk]
      simp only [List.lookup_cons, hne, hb]

theorem TagResource_requests (conn : SSOAdmin) (input : TagResourceInput) :
    (conn.TagResource input).2.requests = conn.requests ++ [Request.TagResource input] := by
  unfold SSOAdmin.TagResource
  cases conn.tagAnswer input <;> rfl

theorem UntagResource_requests (conn : SSOAdmin) (input : UntagResourceInput) :
    (conn.UntagResource input).2.requests = conn.requests ++ [Request.UntagResource input] := by
  unfold SSOAdmin.UntagResource
  cases conn.untagAnswer input <;> rfl

theorem TagResource_fst (conn : SSOAdmin) (input : TagResourceInput) :
    (conn.TagResource input).1 = conn.tagAnswer input := by
  unfold SSOAdmin.TagResource
  cases conn.tagAnswer input <;> rfl

theorem UntagResource_fst (conn : SSOAdmin) (input : UntagResourceInput) :
    (conn.UntagResource input).1 = conn.untagAnswer input := by
  unfold SSOAdmin.UntagResource
  cases conn.untagAnswer input <;> rfl

/-- What a `TagResource` call returns does not depend on the calls made before. -/
theorem tagAnswer_after_untag (conn : SSOAdmin) (u : UntagResourceInput)
    (input : TagResourceInput) :
    (conn.UntagResource u).2.tagAnswer input = conn.tagAnswer input := by
  unfold SSOAdmin.UntagResource
  cases conn.untagAnswer u <;> rfl

/-- The tail of `SsoUpdateTags`, from the `TagResource` call on. -/
theorem tagStep (conn : SSOAdmin) (identifier : String) (input : TagResourceInput) :
    (match conn.TagResource input with
      | (some err, conn2) =>
        (some ("error tagging resource (" ++ identifier ++ "): " ++ err.Error), conn2)
      | (none, conn2) => ((none : Option String), conn2)) =
      ((conn.tagAnswer input).map
          (fun err => "error tagging resource (" ++ identifier ++ "): " ++ err.Error),
        (conn.TagResource input).2) := by
  unfold SSOAdmin.TagResource
  cases conn.tagAnswer input <;> rfl

/-- The `UntagResource` step of `SsoUpdateTags`. -/
theorem untagStep (conn : SSOAdmin) (identifier : String) (input : UntagResourceInput) :
    (match conn.UntagResource input with
      | (some err, conn1) =>
        (some ("error untagging resource (" ++ identifier ++ "): " ++ err.Error), conn1)
      | (none, conn1) => ((none : Option String), conn1)) =
      ((conn.untagAnswer input).map
          (fun err => "error untagging resource (" ++ identifier ++ "): " ++ err.Error),
        (conn.UntagResource input).2) := by
  unfold SSOAdmin.UntagResource
  cases conn.untagAnswer input <;> rfl

/-- The tail of `SsoUpdateTags`, from the `TagResource` call on: when it returns
nil the tags of the request have been written. -/
theorem tagStep_remoteTags (conn : SSOAdmin) (identifier : String) (input : TagResourceInput)
    (h : (match conn.TagResource input with
      | (some err, conn2) =>
        (some ("error tagging resource (" ++ identifier ++ "): " ++ err.Error), conn2)
      | (none, conn2) => ((none : Option String), conn2)).1 = none) :
    (match conn.TagResource input with
      | (some err, conn2) =>
        (some ("error tagging resource (" ++ identifier ++ "): " ++ err.Error), conn2)
      | (none, conn2) => ((none : Option String), conn2)).2.remoteTags =
      input.Tags.foldl putTag conn.remoteTags := by
  unfold SSOAdmin.TagResource at h ⊢
  cases hte : conn.tagAnswer input with
  | some e => simp [hte] at h
  | none => simp [hte]

/-- The tags the service holds after a run of `SsoUpdateTags` that returned nil. -/
theorem SsoUpdateTags_remoteTags (conn : SSOAdmin) (identifier instanceArn : String)
    (A B : List (String × String))
    (h : (SsoUpdateTags conn identifier instanceArn A B).1 = none) :
    (SsoUpdateTags conn identifier instanceArn A B).2.remoteTags =
      (KeyValueTags.Updated A B).IgnoreAws.SsoTags.foldl putTag
        (conn.remoteTags.filter
          (fun kv => !((KeyValueTags.Removed A B).IgnoreAws.Keys.contains kv.1))) := by
  have hkeys : ∀ l : List String, (l.map some).map aws.StringValue = l := by
    intro l; induction l with
    | nil => rfl
    | cons x l ih => simpa [aws.StringValue] using ih
  unfold SsoUpdateTags at h ⊢
  simp only [New] at h ⊢
  by_cases hR : (KeyValueTags.Removed A B).length > 0
  · simp only [hR, if_true] at h ⊢
    cases hue : conn.untagAnswer ⟨some instanceArn, some identifier,
        (KeyValueTags.Removed A B).IgnoreAws.Keys.map some⟩ with
    | some e => simp [SSOAdmin.UntagResource, hue] at h
    | none =>
      simp only [SSOAdmin.UntagResource, hue] at h ⊢
      by_cases hU : (KeyValueTags.Updated A B).length > 0
      · simp only [hU, if_true] at h ⊢
        rw [tagStep_remoteTags _ _ _ h]
        simp [hkeys]
      · have hU0 : KeyValueTags.Updated A B = [] := by
          apply List.eq_nil_of_length_eq_zero; omega
        simp [hU0, hkeys, KeyValueTags.IgnoreAws, KeyValueTags.SsoTags, KeyValueTags.Map]
  · have hR0 : KeyValueTags.Removed A B = [] := by
      apply List.eq_nil_of_length_eq_zero; omega
    simp only [hR0, List.length_nil, gt_iff_lt, lt_self_iff_false, if_false] at h ⊢
    by_cases hU : (KeyValueTags.Updated A B).length > 0
    · simp only [hU, if_true] at h ⊢
      rw [tagStep_remoteTags _ _ _ h]
      simp [KeyValueTags.IgnoreAws, KeyValueTags.Keys]
    · have hU0 : KeyValueTags.Updated A B = [] := by
        apply List.eq_nil_of_length_eq_zero; omega
      simp [hU0, KeyValueTags.IgnoreAws, KeyValueTags.SsoTags, KeyValueTags.Map,
        KeyValueTags.Keys]

theorem mem_keys_filter_key (p : String → Bool) (l : List (String × String)) (k : String) :
    k ∈ (l.filter (fun kv => p kv.1)).map Prod.fst ↔ k ∈ l.map Prod.fst ∧ p k = true := by
  simp only [List.mem_map, List.mem_filter]
  constructor
  · rintro ⟨x, ⟨hx, hp⟩, rfl⟩
    exact ⟨⟨x, hx, rfl⟩, hp⟩
  · rintro ⟨⟨x, hx, rfl⟩, hp⟩
    exact ⟨x, ⟨hx, hp⟩, rfl⟩

theorem mem_removed_keys (A B : KeyValueTags) (k : String) :
    k ∈ (KeyValueTags.Removed A B).IgnoreAws.Keys ↔
      k ∈ A.map Prod.fst ∧ B.lookup k = none ∧ strings.HasPrefix k AwsTagKeyPrefix = false := by
  unfold KeyValueTags.Keys KeyValueTags.IgnoreAws KeyValueTags.Removed
  rw [mem_keys_filter_key (fun key => !strings.HasPrefix key AwsTagKeyPrefix),
    mem_keys_filter_key (fun key => (B.lookup key).isNone)]
  simp [and_assoc]

/-- The tags held by the service after a run of `SsoUpdateTags` that returned
nil, key by key: the new value on the keys that are not reserved, the value held
before on the reserved ones. -/
theorem lookup_after_SsoUpdateTags (conn : SSOAdmin) (identifier instanceArn : String)
    (A B : List (String × String)) (hB : KeysUnique B)
    (h : (SsoUpdateTags conn identifier instanceArn A B).1 = none) (hA : conn.remoteTags = A)
    (k : String) :
    (SsoUpdateTags conn identifier instanceArn A B).2.remoteTags.lookup k =
      if strings.HasPrefix k AwsTagKeyPrefix then A.lookup k else B.lookup k := by
  rw [SsoUpdateTags_remoteTags conn identifier instanceArn A B h, hA]
  have hU : KeysUnique (KeyValueTags.Updated A B).IgnoreAws :=
    keysUnique_filter _ _ (keysUnique_filter _ _ hB)
  rw [lookup_foldl_putTag _ hU]
  have hbase := lookup_filter_key
    (fun key => !((KeyValueTags.Removed A B).IgnoreAws.Keys.contains key)) A k
  have hupd : (KeyValueTags.Updated A B).IgnoreAws.lookup k =
      if strings.HasPrefix k AwsTagKeyPrefix then none
      else match B.lookup k with
        | some v => if A.lookup k != some v then some v else none
        | none => none := by
    unfold KeyValueTags.IgnoreAws
    rw [lookup_filter_key (fun key => !strings.HasPrefix key AwsTagKeyPrefix)]
    unfold KeyValueTags.Updated
    rw [lookup_filter_pair (fun kv => A.lookup kv.1 != some kv.2) B hB k]
    by_cases hp : strings.HasPrefix k AwsTagKeyPrefix = true <;> simp [hp]
  rw [hupd, hbase]
  have hmem := mem_removed_keys A B k
  by_cases hp : strings.HasPrefix k AwsTagKeyPrefix = true
  · have hnot : ¬ k ∈ (KeyValueTags.Removed A B).IgnoreAws.Keys := by
      rw [hmem]; simp [hp]
    simp [hp, hnot]
  · simp only [Bool.not_eq_true] at hp
    simp only [hp, Bool.false_eq_true, if_false]
    cases hb : B.lookup k with
    | some v =>
      have hnot : ¬ k ∈ (KeyValueTags.Removed A B).IgnoreAws.Keys := by
        rw [hmem]; simp [hb]
      by_cases ha : A.lookup k = some v
      · simp [ha, hnot]
      · simp [ha]
    | none =>
      by_cases hk : k ∈ A.map Prod.fst
      · have hin : k ∈ (KeyValueTags.Removed A B).IgnoreAws.Keys := by
          rw [hmem]; exact ⟨hk, hb, hp⟩
        simp [hin]
      · have hnot : ¬ k ∈ (KeyValueTags.Removed A B).IgnoreAws.Keys := by
          rw [hmem]; simp [hk]
        simp [hnot, lookup_eq_none_of_not_mem_keys A k hk]

end keyvaluetags

/-! ## Tag reconciliation: claims -/

namespace keyvaluetags

open ssoadmin

theorem lookup_of_mem_unique (l : KeyValueTags) (h : KeysUnique l) (kv : String × String)
    (hm : kv ∈ l) : l.lookup kv.1 = some kv.2 := by
  induction l with
  | nil => simp at hm
  | cons x l ih =>
    obtain ⟨a, b⟩ := x
    have hu : a ∉ l.map Prod.fst ∧ KeysUnique l := by
      simpa [KeysUnique] using h
    rcases List.mem_cons.1 hm with rfl | hm
    · simp [List.lookup_cons]
    · have hne : (kv.1 == a) = false := by
        have : kv.1 ≠ a := by
          intro he
          exact hu.1 (he ▸ List.mem_map_of_mem Prod.fst hm)
        simpa using this
      simp [List.lookup_cons, hne, ih hu.2 hm]

theorem Removed_self (l : KeyValueTags) : KeyValueTags.Removed l l = [] := by
  unfold KeyValueTags.Removed
  rw [List.filter_eq_nil_iff]
  intro kv hm
  obtain ⟨v, hv⟩ := lookup_isSome_of_mem_keys l kv.1 (List.mem_map_of_mem Prod.fst hm)
  simp [hv]

theorem Updated_self (l : KeyValueTags) (h : KeysUnique l) : KeyValueTags.Updated l l = [] := by
  unfold KeyValueTags.Updated
  rw [List.filter_eq_nil_iff]
  intro kv hm
  simp [lookup_of_mem_unique l h kv hm]

theorem Removed_nil_left (l : KeyValueTags) : KeyValueTags.Removed [] l = [] := rfl

theorem Updated_nil_right (l : KeyValueTags) : KeyValueTags.Updated l [] = [] := rfl

theorem Removed_nil_right (l : KeyValueTags) : KeyValueTags.Removed l [] = l := by
  unfold KeyValueTags.Removed
  rw [List.filter_eq_self]
  intro kv _
  simp

theorem Updated_nil_left (l : KeyValueTags) : KeyValueTags.Updated [] l = l := by
  unfold KeyValueTags.Updated
  rw [List.filter_eq_self]
  intro kv _
  simp

/-- C5, counterexample: the old set has a reserved key and a plain one, the new
set is empty; the run succeeds, the one untag request carries the plain key
only, and the reserved tag is still held by the service, which therefore does
not hold the new set. -/
theorem C5_reserved_tag_survives :
    KeysUnique [("aws:createdBy", "cfn"), ("team", "a")] ∧ KeysUnique [] ∧
    (SsoUpdateTags (SSOAdmin.holding [("aws:createdBy", "cfn"), ("team", "a")])
      "arn:aws:sso:::permissionSet/ssoins-1/ps-1" "arn:aws:sso:::instance/ssoins-1"
      [("aws:createdBy", "cfn"), ("team", "a")] []).1 = none ∧
    (SsoUpdateTags (SSOAdmin.holding [("aws:createdBy", "cfn"), ("team", "a")])
      "arn:aws:sso:::permissionSet/ssoins-1/ps-1" "arn:aws:sso:::instance/ssoins-1"
      [("aws:createdBy", "cfn"), ("team", "a")] []).2.requests
        = [Request.UntagResource ⟨some "arn:aws:sso:::instance/ssoins-1",
            some "arn:aws:sso:::permissionSet/ssoins-1/ps-1", [some "team"]⟩] ∧
    (SsoUpdateTags (SSOAdmin.holding [("aws:createdBy", "cfn"), ("team", "a")])
      "arn:aws:sso:::permissionSet/ssoins-1/ps-1" "arn:aws:sso:::instance/ssoins-1"
      [("aws:createdBy", "cfn"), ("team", "a")] []).2.remoteTags
        = [("aws:createdBy", "cfn")] ∧
    ¬ SameTags
      (SsoUpdateTags (SSOAdmin.holding [("aws:createdBy", "cfn"), ("team", "a")])
        "arn:aws:sso:::permissionSet/ssoins-1/ps-1" "arn:aws:sso:::instance/ssoins-1"
        [("aws:createdBy", "cfn"), ("team", "a")] []).2.remoteTags
      [] := by
  refine ⟨by decide, by decide, by decide, by decide, by decide, ?_⟩
  intro h
  exact absurd (h "aws:createdBy") (by decide)

/-- C5, as amended: starting from a service that holds `A`, a run of
`SsoUpdateTags A B` that returns nil leaves every key without the reserved prefix
`aws:` with the value it has in `B` (or absent as in `B`), and every key with
the prefix as it was in `A`; so the service holds `B` when no key of `A` or `B`
carries the prefix. -/
theorem C5_tags_reconciled_outside_reserved (conn : SSOAdmin) (identifier instanceArn : String)
    (A B : List (String × String)) (hB : KeysUnique B) (hA : conn.remoteTags = A)
    (h : (SsoUpdateTags conn identifier instanceArn A B).1 = none) :
    (∀ k, (SsoUpdateTags conn identifier instanceArn A B).2.remoteTags.lookup k =
      if strings.HasPrefix k AwsTagKeyPrefix then A.lookup k else B.lookup k) ∧
    ((∀ k ∈ A.map Prod.fst ++ B.map Prod.fst, strings.HasPrefix k AwsTagKeyPrefix = false) →
      SameTags (SsoUpdateTags conn identifier instanceArn A B).2.remoteTags B) := by
  have hl := lookup_after_SsoUpdateTags conn identifier instanceArn A B hB h hA
  refine ⟨hl, ?_⟩
  intro hfree k
  rw [hl k]
  by_cases hp : strings.HasPrefix k AwsTagKeyPrefix = true
  · have hkA : k ∉ A.map Prod.fst := by
      intro hm
      have := hfree k (List.mem_append_left _ hm)
      rw [hp] at this
      exact Bool.noConfusion this
    have hkB : k ∉ B.map Prod.fst := by
      intro hm
      have := hfree k (List.mem_append_right _ hm)
      rw [hp] at this
      exact Bool.noConfusion this
    simp [hp, lookup_eq_none_of_not_mem_keys A k hkA, lookup_eq_none_of_not_mem_keys B k hkB]
  · simp [hp]

theorem C5_tags_reconciled_outside_reserved_witness :
    (∀ k, (SsoUpdateTags (SSOAdmin.holding [("team", "a"), ("env", "dev")]) "arn:aws:sso:::permissionSet/ssoins-1/ps-1"
      "arn:aws:sso:::instance/ssoins-1"
        [("team", "a"), ("env", "dev")] [("env", "prod"), ("owner", "b")]).2.remoteTags.lookup k =
      if strings.HasPrefix k AwsTagKeyPrefix then
        List.lookup k [("team", "a"), ("env", "dev")]
      else List.lookup k [("env", "prod"), ("owner", "b")]) ∧
    ((∀ k ∈ List.map Prod.fst [("team", "a"), ("env", "dev")] ++
          List.map Prod.fst [("env", "prod"), ("owner", "b")],
        strings.HasPrefix k AwsTagKeyPrefix = false) →
      SameTags (SsoUpdateTags (SSOAdmin.holding [("team", "a"), ("env", "dev")]) "arn:aws:sso:::permissionSet/ssoins-1/ps-1"
      "arn:aws:sso:::instance/ssoins-1"
        [("team", "a"), ("env", "dev")] [("env", "prod"), ("owner", "b")]).2.remoteTags
        [("env", "prod"), ("owner", "b")]) :=
  C5_tags_reconciled_outside_reserved (SSOAdmin.holding [("team", "a"), ("env", "dev")])
    "arn:aws:sso:::permissionSet/ssoins-1/ps-1"
      "arn:aws:sso:::instance/ssoins-1" [("team", "a"), ("env", "dev")] [("env", "prod"), ("owner", "b")]
    (by decide) rfl (by decide)

/-- C6, counterexample: with an empty old set and a new set whose only key is
reserved, the one `TagResource` request carries no tag at all, not the tags of
the new set. -/
theorem C6_full_add_omits_reserved :
    (SsoUpdateTags (SSOAdmin.holding []) "arn:aws:sso:::permissionSet/ssoins-1/ps-1"
      "arn:aws:sso:::instance/ssoins-1" [] [("aws:createdBy", "cfn")]).2.requests
      = [Request.TagResource ⟨some "arn:aws:sso:::instance/ssoins-1",
        some "arn:aws:sso:::permissionSet/ssoins-1/ps-1", []⟩] ∧
    KeyValueTags.SsoTags [("aws:createdBy", "cfn")] ≠ [] := by
  decide

/-- C6, as amended: with equal old and new sets (both empty included) no request
is sent and nil is returned; with an empty old set and a non-empty new one the
only request is one `TagResource` carrying the tags of the new set whose key has
not the reserved prefix `aws:`; with an empty new set and a non-empty old one the
only request is one `UntagResource` carrying the keys of the old set that have
not the reserved prefix. -/
theorem C6_tag_diff_edge_cases (conn : SSOAdmin) (identifier instanceArn : String)
    (same : List (String × String)) (hsame : KeysUnique same)
    (t : String × String) (ts : List (String × String)) :
    SsoUpdateTags conn identifier instanceArn [] [] = (none, conn) ∧
    SsoUpdateTags conn identifier instanceArn same same = (none, conn) ∧
    (SsoUpdateTags conn identifier instanceArn [] (t :: ts)).2.requests =
      conn.requests ++ [Request.TagResource ⟨some instanceArn, some identifier,
        KeyValueTags.SsoTags
          ((t :: ts).filter (fun kv => !strings.HasPrefix kv.1 AwsTagKeyPrefix))⟩] ∧
    (SsoUpdateTags conn identifier instanceArn (t :: ts) []).2.requests =
      conn.requests ++ [Request.UntagResource ⟨some instanceArn, some identifier,
        (((t :: ts).filter (fun kv => !strings.HasPrefix kv.1 AwsTagKeyPrefix)).map
          Prod.fst).map some⟩] := by
  refine ⟨rfl, ?_, ?_, ?_⟩
  · simp [SsoUpdateTags, New, Removed_self, Updated_self same hsame]
  · unfold SsoUpdateTags
    simp only [New, Removed_nil_left, Updated_nil_left, List.length_nil, gt_iff_lt,
      lt_self_iff_false, if_false, List.length_cons, Nat.zero_lt_succ, if_true]
    rw [tagStep, TagResource_requests]
    simp [KeyValueTags.IgnoreAws]
  · unfold SsoUpdateTags
    simp only [New, Removed_nil_right, Updated_nil_right, List.length_nil, gt_iff_lt,
      lt_self_iff_false, if_false, List.length_cons, Nat.zero_lt_succ, if_true]
    rw [untagStep]
    cases conn.untagAnswer ⟨some instanceArn, some identifier,
        (KeyValueTags.IgnoreAws (t :: ts)).Keys.map some⟩ <;>
      simp [UntagResource_requests, KeyValueTags.IgnoreAws, KeyValueTags.Keys]

theorem C6_tag_diff_edge_cases_witness :
    SsoUpdateTags (SSOAdmin.holding []) "arn:aws:sso:::permissionSet/ssoins-1/ps-1"
      "arn:aws:sso:::instance/ssoins-1" [] [] = (none, SSOAdmin.holding []) ∧
    SsoUpdateTags (SSOAdmin.holding []) "arn:aws:sso:::permissionSet/ssoins-1/ps-1"
      "arn:aws:sso:::instance/ssoins-1" [("env", "dev")] [("env", "dev")]
      = (none, SSOAdmin.holding []) ∧
    (SsoUpdateTags (SSOAdmin.holding []) "arn:aws:sso:::permissionSet/ssoins-1/ps-1"
      "arn:aws:sso:::instance/ssoins-1" [] (("env", "dev") :: [])).2.requests =
      (SSOAdmin.holding []).requests ++ [Request.TagResource ⟨some "arn:aws:sso:::instance/ssoins-1",
        some "arn:aws:sso:::permissionSet/ssoins-1/ps-1",
        KeyValueTags.SsoTags
          ((("env", "dev") :: []).filter (fun kv => !strings.HasPrefix kv.1 AwsTagKeyPrefix))⟩] ∧
    (SsoUpdateTags (SSOAdmin.holding []) "arn:aws:sso:::permissionSet/ssoins-1/ps-1"
      "arn:aws:sso:::instance/ssoins-1" (("env", "dev") :: []) []).2.requests =
      (SSOAdmin.holding []).requests ++ [Request.UntagResource ⟨some "arn:aws:sso:::instance/ssoins-1",
        some "arn:aws:sso:::permissionSet/ssoins-1/ps-1",
        (((("env", "dev") :: []).filter (fun kv => !strings.HasPrefix kv.1 AwsTagKeyPrefix)).map
          Prod.fst).map some⟩] :=
  C6_tag_diff_edge_cases (SSOAdmin.holding []) "arn:aws:sso:::permissionSet/ssoins-1/ps-1"
      "arn:aws:sso:::instance/ssoins-1" [("env", "dev")] (by decide)
    ("env", "dev") []

end keyvaluetags

/-! ## The data sources and the resource read: claims -/

open schema

/-- The callback of `dataSourceAwsSsoInstanceRead` gathers every page. -/
theorem eachPage_gathers (pages : List (Option ssoadmin.ListInstancesOutput))
    (acc : List ssoadmin.InstanceMetadata) :
    ssoadmin.eachPage
      (fun (instances : List ssoadmin.InstanceMetadata)
          (page : Option ssoadmin.ListInstancesOutput) (lastPage : Bool) =>
        match page with
        | some p => (if p.Instances.length != 0 then instances ++ p.Instances else instances,
            !lastPage)
        | none => (instances, !lastPage))
      acc pages = acc ++ allInstances pages := by
  induction pages generalizing acc with
  | nil => simp [ssoadmin.eachPage, allInstances]
  | cons page rest ih =>
    cases rest with
    | nil =>
      cases page with
      | none => simp [ssoadmin.eachPage, allInstances]
      | some p =>
        by_cases hp : p.Instances = []
        · simp [ssoadmin.eachPage, allInstances, hp]
        · simp [ssoadmin.eachPage, allInstances, hp]
    | cons next rest =>
      cases page with
      | none =>
        simp only [ssoadmin.eachPage, Bool.not_false]
        rw [ih]
        simp [allInstances]
      | some p =>
        by_cases hp : p.Instances = []
        · simp only [ssoadmin.eachPage, Bool.not_false, hp, List.length_nil, bne_self_eq_false,
            Bool.false_eq_true, if_false]
          rw [ih]
          simp [allInstances, hp]
        · have hlen : (p.Instances.length != 0) = true := by
            simpa using hp
          simp only [ssoadmin.eachPage, Bool.not_false, hlen, if_true]
          rw [ih]
          simp [allInstances]

/-- C9: for a listing that succeeds, with all pages taken together:
no instance, the id is set to the empty string and nil is returned; more than
one instance, an error is returned and the resource data is untouched; exactly
one instance with an ARN `arn:P:sso:::instance/ID`, the id is set to
`ID/identityStoreId` and `arn` and `identity_store_id` to the values of the
instance. -/
theorem C9_instance_read (d : ResourceData) (meta : AWSClient)
    (pages : List (Option ssoadmin.ListInstancesOutput))
    (hpages : meta.ssoadminconn.ListInstancesPages = (pages, none)) :
    (allInstances pages = [] → dataSourceAwsSsoInstanceRead d meta = (none, d.SetId "")) ∧
    (1 < (allInstances pages).length →
      (dataSourceAwsSsoInstanceRead d meta).1.isSome = true ∧
      (dataSourceAwsSsoInstanceRead d meta).2 = d) ∧
    (∀ (inst : ssoadmin.InstanceMetadata) (P ID : String), allInstances pages = [inst] →
      inst.InstanceArn = some ("arn:" ++ P ++ ":sso:::instance/" ++ ID) →
      (∀ c ∈ P.data, c ≠ ':') → ID ≠ "" → (∀ c ∈ ID.data, c ≠ '/') →
      dataSourceAwsSsoInstanceRead d meta =
        (none, ((d.SetId (ID ++ "/" ++ aws.StringValue inst.IdentityStoreId)).Set "arn"
          (.string ("arn:" ++ P ++ ":sso:::instance/" ++ ID))).Set "identity_store_id"
          (.string (aws.StringValue inst.IdentityStoreId)))) := by
  have hall := eachPage_gathers pages []
  simp only [List.nil_append] at hall
  refine ⟨?_, ?_, ?_⟩
  · intro h0
    simp only [dataSourceAwsSsoInstanceRead, hpages, hall, h0]
  · intro h1
    match hl : allInstances pages with
    | [] => rw [hl] at h1; simp at h1
    | [_] => rw [hl] at h1; simp at h1
    | a :: b :: rest =>
      simp only [dataSourceAwsSsoInstanceRead, hpages, hall, hl]
      simp
  · intro inst P ID h1 harn hP hne hID
    have hid := instanceID_wellFormed P ID (aws.StringValue inst.IdentityStoreId) hP hne hID
    have hsv : ∀ x : String, aws.StringValue (some x) = x := fun _ => rfl
    simp only [dataSourceAwsSsoInstanceRead, hpages, hall, h1, harn, hsv, hid]

theorem C9_instance_read_witness :
    dataSourceAwsSsoInstanceRead ⟨"", []⟩
        (AWSClient.of
          (ssoadmin.SSOAdmin.serving [⟨some "arn:aws:sso:::instance/ssoins-1", some "d-1"⟩] [] [])
          (identitystore.IdentityStore.serving [])) =
      (none, (((⟨"", []⟩ : ResourceData).SetId
        ("ssoins-1" ++ "/" ++ aws.StringValue (some "d-1"))).Set "arn"
          (.string ("arn:" ++ "aws" ++ ":sso:::instance/" ++ "ssoins-1"))).Set "identity_store_id"
          (.string (aws.StringValue (some "d-1")))) :=
  (C9_instance_read ⟨"", []⟩
    (AWSClient.of
      (ssoadmin.SSOAdmin.serving [⟨some "arn:aws:sso:::instance/ssoins-1", some "d-1"⟩] [] [])
      (identitystore.IdentityStore.serving []))
    [some ⟨[⟨some "arn:aws:sso:::instance/ssoins-1", some "d-1"⟩]⟩] rfl).2.2
    ⟨some "arn:aws:sso:::instance/ssoins-1", some "d-1"⟩ "aws" "ssoins-1" rfl (by decide)
    (by decide) (by decide) (by decide)

/-! ### The user lookup -/

theorem GetString_Set_same (d : ResourceData) (key v : String) :
    (d.Set key (.string v)).GetString key = v := by
  simp [ResourceData.Set, ResourceData.GetString, List.lookup_cons]

theorem GetString_Set_other (d : ResourceData) (key other : String) (v : Value)
    (h : key ≠ other) : (d.Set other v).GetString key = d.GetString key := by
  have hne : (key == other) = false := by simpa using h
  simp only [ResourceData.Set, ResourceData.GetString, List.lookup_cons, hne]
  rw [keyvaluetags.lookup_filter_key (fun k => k != other) d.attrs key]
  simp [h]

/-- C7, the code at the failing input: the store answers the lookup by name with
two users, and the read returns nil with the id and `user_id` of the first. -/
theorem C7_lookup_by_name_accepts_two_users :
    dataSourceAwsIdentityStoreUserRead
        ⟨"", [("identity_store_id", .string "d-1"), ("user_name", .string "alice")]⟩
        (AWSClient.of (ssoadmin.SSOAdmin.holding [])
          (identitystore.IdentityStore.serving
            [⟨some "u-1", some "alice"⟩, ⟨some "u-2", some "alice"⟩])) =
      (none, ⟨"u-1", [("user_id", .string "u-1"), ("identity_store_id", .string "d-1"),
        ("user_name", .string "alice")]⟩) := by
  decide

/-- What the user lookup by name does, for every answer of the store: an error
for no user, the first user otherwise. -/
theorem userRead_by_name (d : ResourceData) (meta : AWSClient)
    (resp : Option identitystore.ListUsersOutput)
    (hid : d.GetString "user_id" = "") (hname : d.GetString "user_name" ≠ "")
    (hlist : meta.identitystoreconn.ListUsers
      ⟨some (d.GetString "identity_store_id"), [⟨some "UserName", some (d.GetString "user_name")⟩]⟩
        = .ok resp) :
    dataSourceAwsIdentityStoreUserRead d meta =
      match resp with
      | none => (some "No AWS Identity Store User found", d)
      | some ⟨[]⟩ => (some "No AWS Identity Store User found", d)
      | some ⟨user :: _⟩ =>
        (none, (d.SetId (aws.StringValue user.UserId)).Set "user_id"
          (.string (aws.StringValue user.UserId))) := by
  unfold dataSourceAwsIdentityStoreUserRead
  simp only [hid, bne_self_eq_false, Bool.false_eq_true, if_false, hlist]
  have hn : (d.GetString "user_name" != "") = true := by simpa using hname
  simp only [hn, if_true]
  match resp with
  | none => rfl
  | some ⟨[]⟩ => rfl
  | some ⟨user :: _⟩ => rfl

/-! ### The resource read -/

/-- C10, the code at the failing input: the service answers `DescribePermissionSet`
with the not-found error, and the read returns an error and leaves the id. -/
theorem C10_read_not_found_is_an_error :
    resourceAwsSsoPermissionSetRead
        ⟨"arn:aws:sso:::permissionSet/ssoins-1/ps-1",
          [("instance_arn", .string "arn:aws:sso:::instance/ssoins-1"),
            ("name", .string "admins")]⟩
        (AWSClient.of (ssoadmin.SSOAdmin.serving [] [] [])
          (identitystore.IdentityStore.serving [])) =
      (some "Error getting AWS SSO Permission Set: ResourceNotFoundException: not found",
        ⟨"arn:aws:sso:::permissionSet/ssoins-1/ps-1",
          [("instance_arn", .string "arn:aws:sso:::instance/ssoins-1"),
            ("name", .string "admins")]⟩) := by
  decide

/-- Whatever error `DescribePermissionSet` is answered with, the resource read
returns an error and leaves the resource data as it was. -/
theorem resourceRead_of_describe_error (d : ResourceData) (meta : AWSClient) (e : awserr.Error)
    (h : meta.ssoadminconn.DescribePermissionSet (d.GetString "instance_arn") d.Id = .error e) :
    resourceAwsSsoPermissionSetRead d meta =
      (some ("Error getting AWS SSO Permission Set: " ++ e.Error), d) := by
  simp only [resourceAwsSsoPermissionSetRead, h]

/-- The one way the resource read clears the id: the permission set described
bears another name than the configured one. -/
theorem resourceRead_of_other_name (d : ResourceData) (meta : AWSClient)
    (ps : ssoadmin.PermissionSet)
    (h : meta.ssoadminconn.DescribePermissionSet (d.GetString "instance_arn") d.Id = .ok ps)
    (hname : aws.StringValue ps.Name ≠ d.GetString "name") :
    resourceAwsSsoPermissionSetRead d meta = (none, d.SetId "") := by
  simp [resourceAwsSsoPermissionSetRead, h, hname]

/-! ### The permission set lookup -/

theorem describeUntilNamed_none (conn : ssoadmin.SSOAdmin) (instanceArn name : String)
    (arns : List (Option String)) (start : String)
    (h : ∀ p ∈ arns, ∃ ps, conn.DescribePermissionSet instanceArn (aws.StringValue p) = .ok ps ∧
      aws.StringValue ps.Name ≠ name) :
    ∃ last, describeUntilNamed conn instanceArn name start arns = .ok (last, none) := by
  induction arns generalizing start with
  | nil => exact ⟨start, rfl⟩
  | cons p rest ih =>
    obtain ⟨ps, hps, hn⟩ := h p (List.mem_cons_self _ _)
    obtain ⟨last, hlast⟩ := ih (aws.StringValue p) (fun q hq => h q (List.mem_cons_of_mem _ hq))
    refine ⟨last, ?_⟩
    simp only [describeUntilNamed, hps]
    rw [if_neg (by simpa using hn)]
    exact hlast

theorem describeUntilNamed_found (conn : ssoadmin.SSOAdmin) (instanceArn name : String)
    (pre post : List (Option String)) (a : Option String) (ps : ssoadmin.PermissionSet)
    (start : String)
    (h : ∀ p ∈ pre, ∃ q, conn.DescribePermissionSet instanceArn (aws.StringValue p) = .ok q ∧
      aws.StringValue q.Name ≠ name)
    (ha : conn.DescribePermissionSet instanceArn (aws.StringValue a) = .ok ps)
    (hname : aws.StringValue ps.Name = name) :
    describeUntilNamed conn instanceArn name start (pre ++ a :: post)
      = .ok (aws.StringValue a, some ps) := by
  induction pre generalizing start with
  | nil =>
    simp only [List.nil_append, describeUntilNamed, ha]
    rw [if_pos (by simpa using hname)]
  | cons p rest ih =>
    obtain ⟨q, hq, hn⟩ := h p (List.mem_cons_self _ _)
    simp only [List.cons_append, describeUntilNamed, hq]
    rw [if_neg (by simpa using hn)]
    exact ih (aws.StringValue p) (fun r hr => h r (List.mem_cons_of_mem _ hr))

/-- C8, counterexample: with no permission set listed, and with one listed that
bears another name, the lookup returns nil (no error) and sets the id to the
empty string. -/
theorem C8_lookup_without_match_is_no_error :
    dataSourceAwsSsoPermissionSetRead
        ⟨"", [("instance_arn", .string "arn:aws:sso:::instance/ssoins-1"),
          ("name", .string "admins")]⟩
        (AWSClient.of (ssoadmin.SSOAdmin.serving [] [] [])
          (identitystore.IdentityStore.serving [])) =
      (none, ⟨"", [("instance_arn", .string "arn:aws:sso:::instance/ssoins-1"),
          ("name", .string "admins")]⟩) ∧
    dataSourceAwsSsoPermissionSetRead
        ⟨"", [("instance_arn", .string "arn:aws:sso:::instance/ssoins-1"),
          ("name", .string "admins")]⟩
        (AWSClient.of
          (ssoadmin.SSOAdmin.serving []
            [⟨some "readers", none, none, none, some "arn:aws:sso:::permissionSet/ssoins-1/ps-1",
              "2020-11-01T00:00:00Z"⟩] [])
          (identitystore.IdentityStore.serving [])) =
      (none, ⟨"", [("instance_arn", .string "arn:aws:sso:::instance/ssoins-1"),
          ("name", .string "admins")]⟩) := by
  decide

/-- C8, as amended: when the listing succeeds and no listed permission set bears
the requested name (the empty listing included), the lookup returns nil and sets
the id to the empty string; when exactly one listed permission set bears the
name and the calls that follow succeed, nil is returned and the id and `arn` are
the ARN of that permission set. -/
theorem C8_permission_set_lookup (d : ResourceData) (meta : AWSClient)
    (resp : Option (List (Option String)))
    (hlist : meta.ssoadminconn.ListPermissionSets (d.GetString "instance_arn") = .ok resp) :
    ((∀ p ∈ resp.getD [], ∃ ps,
        meta.ssoadminconn.DescribePermissionSet (d.GetString "instance_arn") (aws.StringValue p)
          = .ok ps ∧ aws.StringValue ps.Name ≠ d.GetString "name") →
      dataSourceAwsSsoPermissionSetRead d meta = (none, d.SetId "")) ∧
    (∀ (pre post : List (Option String)) (a : Option String) (ps : ssoadmin.PermissionSet)
        (inlinePolicy : Option String) (attached : List ssoadmin.AttachedManagedPolicy)
        (tags : List ssoadmin.Tag),
      resp = some (pre ++ a :: post) →
      (∀ p ∈ pre ++ post, ∃ q,
        meta.ssoadminconn.DescribePermissionSet (d.GetString "instance_arn") (aws.StringValue p)
          = .ok q ∧ aws.StringValue q.Name ≠ d.GetString "name") →
      meta.ssoadminconn.DescribePermissionSet (d.GetString "instance_arn") (aws.StringValue a)
        = .ok ps →
      aws.StringValue ps.Name = d.GetString "name" →
      meta.ssoadminconn.GetInlinePolicyForPermissionSet (d.GetString "instance_arn")
        (aws.StringValue a) = .ok inlinePolicy →
      meta.ssoadminconn.ListManagedPoliciesInPermissionSet (d.GetString "instance_arn")
        (aws.StringValue a) = .ok attached →
      meta.ssoadminconn.ListTagsForResource (d.GetString "instance_arn") (aws.StringValue a)
        = .ok tags →
      (dataSourceAwsSsoPermissionSetRead d meta).1 = none ∧
      (dataSourceAwsSsoPermissionSetRead d meta).2.Id = aws.StringValue a ∧
      (dataSourceAwsSsoPermissionSetRead d meta).2.GetString "arn" = aws.StringValue a) := by
  refine ⟨?_, ?_⟩
  · intro hno
    match resp, hlist, hno with
    | none, hlist, _ => simp only [dataSourceAwsSsoPermissionSetRead, hlist]
    | some [], hlist, _ => simp only [dataSourceAwsSsoPermissionSetRead, hlist]
    | some (first :: more), hlist, hno =>
      obtain ⟨last, hlast⟩ := describeUntilNamed_none meta.ssoadminconn
        (d.GetString "instance_arn") (d.GetString "name") (first :: more) "" hno
      simp only [dataSourceAwsSsoPermissionSetRead, hlist, hlast]
  · intro pre post a ps inlinePolicy attached tags hresp hothers ha hname hinline hmanaged htags
    have hfound := describeUntilNamed_found meta.ssoadminconn (d.GetString "instance_arn")
      (d.GetString "name") pre post a ps ""
      (fun p hp => hothers p (List.mem_append_left _ hp)) ha hname
    obtain ⟨first, more, hfm⟩ : ∃ first more, pre ++ a :: post = first :: more := by
      cases pre with
      | nil => exact ⟨a, post, rfl⟩
      | cons x xs => exact ⟨x, xs ++ a :: post, rfl⟩
    rw [hfm] at hfound hresp
    subst hresp
    have hread : dataSourceAwsSsoPermissionSetRead d meta =
        (none, (((((((((((d.SetId (aws.StringValue a)).Set "arn"
          (.string (aws.StringValue a))).Set "created_date" (.string ps.CreatedDate)).Set
          "instance_arn" (.string (d.GetString "instance_arn"))).Set "name"
          (.string (aws.StringValue ps.Name))).Set "description"
          (.string (aws.StringValue ps.Description))).Set "session_duration"
          (.string (aws.StringValue ps.SessionDuration))).Set "relay_state"
          (.string (aws.StringValue ps.RelayState))).Set "inline_policy"
          (.string (aws.StringValue inlinePolicy))).Set "managed_policy_arns"
          (.stringList (attached.map (fun p => aws.StringValue p.Arn)))).Set "tags"
          (.stringMap (keyvaluetags.KeyValueTags.Map (meta.IgnoreTagsConfig
            (keyvaluetags.KeyValueTags.IgnoreAws (keyvaluetags.SsoKeyValueTags tags))))))) := by
      simp only [dataSourceAwsSsoPermissionSetRead, hlist, hfound, hinline, hmanaged,
        keyvaluetags.SsoListTags, htags]
    rw [hread]
    refine ⟨rfl, rfl, ?_⟩
    simp only [ne_eq, String.reduceEq, not_false_eq_true, GetString_Set_other,
      GetString_Set_same]

theorem C8_permission_set_lookup_witness :
    (dataSourceAwsSsoPermissionSetRead
        ⟨"", [("instance_arn", .string "arn:aws:sso:::instance/ssoins-1"),
          ("name", .string "admins")]⟩
        (AWSClient.of
          (ssoadmin.SSOAdmin.serving []
            [⟨some "readers", none, none, none, some "ps-1", "2020-11-01T00:00:00Z"⟩,
              ⟨some "admins", none, none, none, some "ps-2", "2020-11-02T00:00:00Z"⟩] [])
          (identitystore.IdentityStore.serving []))).1 = none ∧
    (dataSourceAwsSsoPermissionSetRead
        ⟨"", [("instance_arn", .string "arn:aws:sso:::instance/ssoins-1"),
          ("name", .string "admins")]⟩
        (AWSClient.of
          (ssoadmin.SSOAdmin.serving []
            [⟨some "readers", none, none, none, some "ps-1", "2020-11-01T00:00:00Z"⟩,
              ⟨some "admins", none, none, none, some "ps-2", "2020-11-02T00:00:00Z"⟩] [])
          (identitystore.IdentityStore.serving []))).2.Id = aws.StringValue (some "ps-2") ∧
    (dataSourceAwsSsoPermissionSetRead
        ⟨"", [("instance_arn", .string "arn:aws:sso:::instance/ssoins-1"),
          ("name", .string "admins")]⟩
        (AWSClient.of
          (ssoadmin.SSOAdmin.serving []
            [⟨some "readers", none, none, none, some "ps-1", "2020-11-01T00:00:00Z"⟩,
              ⟨some "admins", none, none, none, some "ps-2", "2020-11-02T00:00:00Z"⟩] [])
          (identitystore.IdentityStore.serving []))).2.GetString "arn"
      = aws.StringValue (some "ps-2") :=
  (C8_permission_set_lookup
    ⟨"", [("instance_arn", .string "arn:aws:sso:::instance/ssoins-1"),
      ("name", .string "admins")]⟩
    (AWSClient.of
      (ssoadmin.SSOAdmin.serving []
        [⟨some "readers", none, none, none, some "ps-1", "2020-11-01T00:00:00Z"⟩,
          ⟨some "admins", none, none, none, some "ps-2", "2020-11-02T00:00:00Z"⟩] [])
      (identitystore.IdentityStore.serving []))
    (some [some "ps-1", some "ps-2"]) rfl).2
    [some "ps-1"] [] (some "ps-2")
    ⟨some "admins", none, none, none, some "ps-2", "2020-11-02T00:00:00Z"⟩ none [] [] rfl
    (by
      intro p hp
      simp only [List.append_nil, List.mem_singleton] at hp
      subst hp
      exact ⟨⟨some "readers", none, none, none, some "ps-1", "2020-11-01T00:00:00Z"⟩, rfl,
        by decide⟩)
    rfl (by decide) rfl rfl rfl

/-! ## Failures of the tagging calls -/

namespace keyvaluetags

open ssoadmin

theorem length_pos_of_ne_nil {α : Type} (l : List α) (h : l ≠ []) : l.length > 0 :=
  List.length_pos.2 h

/-- The run of `SsoUpdateTags` when `UntagResource` is called and fails. -/
theorem SsoUpdateTags_untag_fails (conn : SSOAdmin) (identifier instanceArn : String)
    (A B : List (String × String)) (e : awserr.Error)
    (hR : KeyValueTags.Removed A B ≠ [])
    (he : conn.untagAnswer ⟨some instanceArn, some identifier,
      (KeyValueTags.Removed A B).IgnoreAws.Keys.map some⟩ = some e) :
    SsoUpdateTags conn identifier instanceArn A B =
      (some ("error untagging resource (" ++ identifier ++ "): " ++ e.Error),
        (conn.UntagResource ⟨some instanceArn, some identifier,
          (KeyValueTags.Removed A B).IgnoreAws.Keys.map some⟩).2) := by
  have hlen := length_pos_of_ne_nil _ hR
  simp only [SsoUpdateTags, New, hlen, if_true]
  rw [untagStep, he]
  rfl

/-- The run of `SsoUpdateTags` when `UntagResource` is not called. -/
theorem SsoUpdateTags_no_untag (conn : SSOAdmin) (identifier instanceArn : String)
    (A B : List (String × String)) (hR : KeyValueTags.Removed A B = []) :
    SsoUpdateTags conn identifier instanceArn A B =
      if (KeyValueTags.Updated A B).length > 0 then
        match conn.TagResource
          ⟨some instanceArn, some identifier, (KeyValueTags.Updated A B).IgnoreAws.SsoTags⟩ with
        | (some err, conn2) =>
          (some ("error tagging resource (" ++ identifier ++ "): " ++ err.Error), conn2)
        | (none, conn2) => (none, conn2)
      else (none, conn) := by
  simp only [SsoUpdateTags, New, hR, List.length_nil, gt_iff_lt, lt_self_iff_false, if_false]

/-- The run of `SsoUpdateTags` when `UntagResource` is called and succeeds. -/
theorem SsoUpdateTags_untag_ok (conn : SSOAdmin) (identifier instanceArn : String)
    (A B : List (String × String))
    (hR : KeyValueTags.Removed A B ≠ [])
    (he : conn.untagAnswer ⟨some instanceArn, some identifier,
      (KeyValueTags.Removed A B).IgnoreAws.Keys.map some⟩ = none) :
    SsoUpdateTags conn identifier instanceArn A B =
      if (KeyValueTags.Updated A B).length > 0 then
        match (conn.UntagResource ⟨some instanceArn, some identifier,
            (KeyValueTags.Removed A B).IgnoreAws.Keys.map some⟩).2.TagResource
          ⟨some instanceArn, some identifier, (KeyValueTags.Updated A B).IgnoreAws.SsoTags⟩ with
        | (some err, conn2) =>
          (some ("error tagging resource (" ++ identifier ++ "): " ++ err.Error), conn2)
        | (none, conn2) => (none, conn2)
      else (none, (conn.UntagResource ⟨some instanceArn, some identifier,
            (KeyValueTags.Removed A B).IgnoreAws.Keys.map some⟩).2) := by
  have hlen := length_pos_of_ne_nil _ hR
  simp only [SsoUpdateTags, New, hlen, if_true]
  rw [untagStep, he]
  rfl

/-- C11: a failure of `UntagResource` (the error the call returns, from the
validation of the SDK or from the service) is returned at once, wrapped, and
`TagResource` is not called; a failure of `TagResource` is returned wrapped; and
in every run the calls made are at most one `UntagResource` followed by at most
one `TagResource`. -/
theorem C11_tag_failures_propagate (conn : SSOAdmin) (identifier instanceArn : String)
    (A B : List (String × String)) :
    (∀ e, KeyValueTags.Removed A B ≠ [] →
      (conn.UntagResource ⟨some instanceArn, some identifier,
        (KeyValueTags.Removed A B).IgnoreAws.Keys.map some⟩).1 = some e →
      (SsoUpdateTags conn identifier instanceArn A B).1 =
        some ("error untagging resource (" ++ identifier ++ "): " ++ e.Error) ∧
      (SsoUpdateTags conn identifier instanceArn A B).2.requests =
        conn.requests ++ [Request.UntagResource ⟨some instanceArn, some identifier,
          (KeyValueTags.Removed A B).IgnoreAws.Keys.map some⟩]) ∧
    (∀ e, (KeyValueTags.Removed A B = [] ∨
        (conn.UntagResource ⟨some instanceArn, some identifier,
          (KeyValueTags.Removed A B).IgnoreAws.Keys.map some⟩).1 = none) →
      KeyValueTags.Updated A B ≠ [] →
      (conn.TagResource ⟨some instanceArn, some identifier,
        (KeyValueTags.Updated A B).IgnoreAws.SsoTags⟩).1 = some e →
      (SsoUpdateTags conn identifier instanceArn A B).1 =
        some ("error tagging resource (" ++ identifier ++ "): " ++ e.Error)) ∧
    (∃ untag tag,
      (SsoUpdateTags conn identifier instanceArn A B).2.requests = conn.requests ++ untag ++ tag ∧
      (untag = [] ∨ untag = [Request.UntagResource ⟨some instanceArn, some identifier,
          (KeyValueTags.Removed A B).IgnoreAws.Keys.map some⟩]) ∧
      (tag = [] ∨ tag = [Request.TagResource ⟨some instanceArn, some identifier,
          (KeyValueTags.Updated A B).IgnoreAws.SsoTags⟩])) := by
  refine ⟨?_, ?_, ?_⟩
  · intro e hR he
    rw [UntagResource_fst] at he
    rw [SsoUpdateTags_untag_fails conn identifier instanceArn A B e hR he]
    exact ⟨rfl, UntagResource_requests _ _⟩
  · intro e hU hUpd he
    rw [TagResource_fst] at he
    have hlen := length_pos_of_ne_nil _ hUpd
    by_cases hR : KeyValueTags.Removed A B = []
    · rw [SsoUpdateTags_no_untag conn identifier instanceArn A B hR, if_pos hlen, tagStep, he]
      rfl
    · have hue : conn.untagAnswer ⟨some instanceArn, some identifier,
          (KeyValueTags.Removed A B).IgnoreAws.Keys.map some⟩ = none := by
        rcases hU with h | h
        · exact absurd h hR
        · rw [UntagResource_fst] at h
          exact h
      rw [SsoUpdateTags_untag_ok conn identifier instanceArn A B hR hue, if_pos hlen, tagStep,
        tagAnswer_after_untag, he]
      rfl
  · by_cases hR : KeyValueTags.Removed A B = []
    · rw [SsoUpdateTags_no_untag conn identifier instanceArn A B hR]
      by_cases hlen : (KeyValueTags.Updated A B).length > 0
      · rw [if_pos hlen, tagStep]
        exact ⟨[], _, by simp [TagResource_requests], Or.inl rfl, Or.inr rfl⟩
      · rw [if_neg hlen]
        exact ⟨[], [], by simp, Or.inl rfl, Or.inl rfl⟩
    · cases hue : conn.untagAnswer ⟨some instanceArn, some identifier,
          (KeyValueTags.Removed A B).IgnoreAws.Keys.map some⟩ with
      | some e =>
        rw [SsoUpdateTags_untag_fails conn identifier instanceArn A B e hR hue]
        exact ⟨_, [], by simp [UntagResource_requests], Or.inr rfl, Or.inl rfl⟩
      | none =>
        rw [SsoUpdateTags_untag_ok conn identifier instanceArn A B hR hue]
        by_cases hlen : (KeyValueTags.Updated A B).length > 0
        · rw [if_pos hlen, tagStep]
          exact ⟨_, _, by simp [TagResource_requests, UntagResource_requests], Or.inr rfl,
            Or.inr rfl⟩
        · rw [if_neg hlen]
          exact ⟨_, [], by simp [UntagResource_requests], Or.inr rfl, Or.inl rfl⟩

theorem C11_tag_failures_propagate_witness :
    (SsoUpdateTags
        { SSOAdmin.holding [("env", "dev")] with
          untagResourceErr := some ⟨"ThrottlingException", "slow down"⟩ }
        "arn:aws:sso:::permissionSet/ssoins-1/ps-1" "arn:aws:sso:::instance/ssoins-1"
        [("env", "dev")] [("team", "a")]).1 =
      some ("error untagging resource (" ++ "arn:aws:sso:::permissionSet/ssoins-1/ps-1" ++ "): " ++
        awserr.Error.Error ⟨"ThrottlingException", "slow down"⟩) ∧
    (SsoUpdateTags
        { SSOAdmin.holding [("env", "dev")] with
          untagResourceErr := some ⟨"ThrottlingException", "slow down"⟩ }
        "arn:aws:sso:::permissionSet/ssoins-1/ps-1" "arn:aws:sso:::instance/ssoins-1"
        [("env", "dev")] [("team", "a")]).2.requests =
      ({ SSOAdmin.holding [("env", "dev")] with
          untagResourceErr := some ⟨"ThrottlingException", "slow down"⟩ } : SSOAdmin).requests ++
        [Request.UntagResource ⟨some "arn:aws:sso:::instance/ssoins-1", some "arn:aws:sso:::permissionSet/ssoins-1/ps-1",
          (KeyValueTags.Removed [("env", "dev")] [("team", "a")]).IgnoreAws.Keys.map some⟩] :=
  (C11_tag_failures_propagate
    { SSOAdmin.holding [("env", "dev")] with
      untagResourceErr := some ⟨"ThrottlingException", "slow down"⟩ }
    "arn:aws:sso:::permissionSet/ssoins-1/ps-1" "arn:aws:sso:::instance/ssoins-1"
    [("env", "dev")] [("team", "a")]).1 ⟨"ThrottlingException", "slow down"⟩
    (by decide) (by decide)

end keyvaluetags

/-! ## The shape of the ARNs accepted -/

namespace strings

theorem splitLoop_ne_nil (sep : Char) (n : Nat) (s : List Char) : splitLoop sep n s ≠ [] := by
  intro h
  have := length_splitLoop sep n s
  rw [h] at this
  simp at this

theorem splitLoop_eq_single (sep : Char) (n : Nat) (s q : List Char)
    (h : splitLoop sep n s = [q]) : s = q := by
  cases n with
  | zero => simpa [splitLoop] using h
  | succ n =>
    rcases span_cases sep s with ⟨pre, hsp, hs, _⟩ | ⟨pre, rest, hsp, _, _⟩
    · simp only [splitLoop, hsp, List.cons.injEq, and_true] at h
      rw [hs, h]
    · simp only [splitLoop, hsp, List.cons.injEq] at h
      exact absurd h.2 (splitLoop_ne_nil sep n rest)

theorem splitLoop_eq_pair (sep : Char) (n : Nat) (s p q : List Char)
    (h : splitLoop sep n s = [p, q]) : s = p ++ sep :: q := by
  cases n with
  | zero => simp [splitLoop] at h
  | succ n =>
    rcases span_cases sep s with ⟨pre, hsp, _, _⟩ | ⟨pre, rest, hsp, hs, _⟩
    · simp only [splitLoop, hsp, List.cons.injEq] at h
      exact absurd h.2 (by simp)
    · simp only [splitLoop, hsp, List.cons.injEq] at h
      rw [hs, h.1, splitLoop_eq_single sep n rest q h.2]

/-- A string that splits into two pieces is the two pieces around the separator. -/
theorem eq_of_Split_pair (s p q : String) (sep : Char) (h : Split s sep = [p, q]) :
    s = p ++ String.singleton sep ++ q := by
  simp only [Split, genSplit] at h
  rw [if_neg (by decide), if_pos (by decide)] at h
  match hl : splitLoop sep (((s.data.count sep : Int) + 1).toNat - 1) s.data with
  | [] => rw [hl] at h; simp at h
  | [_] => rw [hl] at h; simp at h
  | [a, b] =>
    rw [hl] at h
    simp only [List.map_cons, List.map_nil, List.cons.injEq, and_true] at h
    have hd := splitLoop_eq_pair sep _ s.data a b hl
    apply String.ext
    rw [← h.1, ← h.2]
    simpa [String.data_append, String.singleton] using hd
  | _ :: _ :: _ :: _ => rw [hl] at h; simp at h

end strings

/-- C12, the code at the failing input: an ARN of the service `s3`, with a region
and an account, whose resource is `instance/ins-1`, is accepted and an identifier
is returned, although the ARN has not the format the function names in its
comment and in its error message. -/
theorem C12_other_service_region_account_accepted :
    dataSourceAwsSsoInstanceID "arn:aws:s3:eu-west-1:123456789012:instance/ins-1" "d-1"
      = ("ins-1/d-1", none) := by
  decide

/-- A string that `arn.Parse` rejects is answered with the error of `arn.Parse`,
handed back unchanged. -/
theorem parse_error_handed_back :
    dataSourceAwsSsoInstanceID "ins-1" "d-1" = ("", some "arn: invalid prefix") ∧
      "arn: invalid prefix" ≠ unexpectedArnFormat "ins-1" := by
  decide

/-- What `dataSourceAwsSsoInstanceID` does check: on every ARN it accepts,
`arn.Parse` succeeds and the resource section is `instance/` followed by a
non-empty id without a slash; an ARN that `arn.Parse` rejects is answered with
the error of `arn.Parse`; an ARN that parses with any other resource section is
answered with the error about the format of the ARN. -/
theorem accepted_arn_resource (instanceArn S : String) :
    ((dataSourceAwsSsoInstanceID instanceArn S).2 = none →
      ∃ a id, arn.Parse instanceArn = .ok a ∧ a.Resource = "instance/" ++ id ∧ id ≠ "" ∧
        ∀ c ∈ id.data, c ≠ '/') ∧
    (∀ e, arn.Parse instanceArn = .error e →
      dataSourceAwsSsoInstanceID instanceArn S = ("", some e)) ∧
    (∀ a, arn.Parse instanceArn = .ok a →
      (¬ ∃ id, id ≠ "" ∧ (∀ c ∈ id.data, c ≠ '/') ∧ a.Resource = "instance/" ++ id) →
      dataSourceAwsSsoInstanceID instanceArn S = ("", some (unexpectedArnFormat instanceArn))) := by
  refine ⟨?_, ?_, ?_⟩
  · intro h
    obtain ⟨a, id, hp, hs, hid, _⟩ := instanceID_success instanceArn S h
    have hmem : id ∈ strings.Split a.Resource '/' := by rw [hs]; simp
    refine ⟨a, id, hp, ?_, hid, strings.Split_pieces a.Resource '/' id hmem⟩
    rw [strings.eq_of_Split_pair a.Resource "instance" id '/' hs, instance_slash_eq]
  · intro e he
    exact instanceID_of_parse_error instanceArn S e he
  · intro a ha hno
    apply instanceID_of_bad_parts instanceArn S a ha
    rintro ⟨id, hid, hs⟩
    apply hno
    have hmem : id ∈ strings.Split a.Resource '/' := by rw [hs]; simp
    refine ⟨id, hid, strings.Split_pieces a.Resource '/' id hmem, ?_⟩
    rw [strings.eq_of_Split_pair a.Resource "instance" id '/' hs, instance_slash_eq]

namespace keyvaluetags

open ssoadmin

/-! ## The conversion between tag sets and service tags -/

theorem mapAssign_of_not_mem (m : List (String × Option String)) (k : String)
    (v : Option String) (h : k ∉ m.map Prod.fst) : mapAssign m k v = m ++ [(k, v)] := by
  unfold mapAssign
  rw [if_neg]
  simp only [List.any_eq_true, beq_iff_eq, not_exists, not_and]
  intro x hx hk
  exact h (hk ▸ List.mem_map_of_mem Prod.fst hx)

theorem foldl_mapAssign_unique (t : KeyValueTags) (acc : List (String × Option String))
    (ht : KeysUnique t) (hacc : ∀ k ∈ t.map Prod.fst, k ∉ acc.map Prod.fst) :
    (t.map (fun kv => (⟨some kv.1, some kv.2⟩ : Tag))).foldl
        (fun m tag => mapAssign m (aws.StringValue tag.Key) tag.Value) acc
      = acc ++ t.map (fun kv => (kv.1, some kv.2)) := by
  induction t generalizing acc with
  | nil => simp
  | cons x t ih =>
    obtain ⟨a, b⟩ := x
    have hu : a ∉ t.map Prod.fst ∧ KeysUnique t := by
      simpa [KeysUnique] using ht
    have ha : a ∉ acc.map Prod.fst := hacc a (by simp)
    show List.foldl _ (mapAssign acc a (some b)) _ = _
    rw [mapAssign_of_not_mem acc a (some b) ha, ih _ hu.2]
    · simp
    · intro k hk hmem
      simp only [List.map_append, List.map_cons, List.map_nil, List.mem_append,
        List.mem_singleton] at hmem
      rcases hmem with hmem | rfl
      · exact hacc k (by simp [hk]) hmem
      · exact hu.1 hk

theorem lookup_replace_other (m : List (String × Option String)) (k k' : String)
    (v : Option String) (h : k' ≠ k) :
    (m.map (fun kv => if kv.1 == k then (k, v) else kv)).lookup k' = m.lookup k' := by
  induction m with
  | nil => rfl
  | cons x m ih =>
    obtain ⟨a, b⟩ := x
    by_cases hak : a = k
    · subst hak
      have hne : (k' == a) = false := by simpa using h
      simp only [List.map_cons, beq_self_eq_true, if_true, List.lookup_cons, hne, ih]
    · have hb : (a == k) = false := by simpa using hak
      simp only [List.map_cons, hb, Bool.false_eq_true, if_false, List.lookup_cons, ih]

theorem lookup_replace_same (m : List (String × Option String)) (k : String)
    (v : Option String) (h : m.any (fun kv => kv.1 == k) = true) :
    (m.map (fun kv => if kv.1 == k then (k, v) else kv)).lookup k = some v := by
  induction m with
  | nil => simp at h
  | cons x m ih =>
    obtain ⟨a, b⟩ := x
    by_cases hak : a = k
    · subst hak
      simp [List.lookup_cons]
    · have hb : (a == k) = false := by simpa using hak
      have hkb : (k == a) = false := by simpa using Ne.symm hak
      simp only [List.any_cons, hb, Bool.false_or] at h
      simp only [List.map_cons, hb, Bool.false_eq_true, if_false, List.lookup_cons, hkb, ih h]

theorem lookup_append_single {β : Type} (m : List (String × β)) (k k' : String) (v : β) :
    (m ++ [(k, v)]).lookup k' =
      match m.lookup k' with
      | some x => some x
      | none => if k' = k then some v else none := by
  induction m with
  | nil =>
    by_cases hk : k' = k
    · subst hk; simp [List.lookup_cons]
    · have hne : (k' == k) = false := by simpa using hk
      simp [List.lookup_cons, hne, hk]
  | cons x m ih =>
    obtain ⟨a, b⟩ := x
    by_cases hka : k' = a
    · subst hka; simp [List.lookup_cons]
    · have hne : (k' == a) = false := by simpa using hka
      simp only [List.cons_append, List.lookup_cons, hne, ih]

theorem lookup_eq_none_of_any_false {β : Type} (m : List (String × β)) (k : String)
    (h : ¬ m.any (fun kv => kv.1 == k) = true) : m.lookup k = none := by
  induction m with
  | nil => rfl
  | cons x m ih =>
    obtain ⟨a, b⟩ := x
    simp only [List.any_cons, Bool.or_eq_true, not_or, beq_iff_eq] at h
    have hne : (k == a) = false := by simpa using Ne.symm h.1
    simp only [List.lookup_cons, hne]
    exact ih (by simpa using h.2)

/-- Go map assignment, read back. -/
theorem lookup_mapAssign (m : List (String × Option String)) (k k' : String)
    (v : Option String) :
    (mapAssign m k v).lookup k' = if k' = k then some v else m.lookup k' := by
  unfold mapAssign
  by_cases hany : m.any (fun kv => kv.1 == k) = true
  · rw [if_pos hany]
    by_cases hk : k' = k
    · subst hk
      rw [if_pos rfl, lookup_replace_same m k' v hany]
    · rw [if_neg hk, lookup_replace_other m k k' v hk]
  · rw [if_neg hany, lookup_append_single]
    by_cases hk : k' = k
    · subst hk
      rw [lookup_eq_none_of_any_false m k' hany]
    · simp only [hk, if_false]
      cases m.lookup k' <;> rfl

/-- The pointer map built by `SsoKeyValueTags`: every key holds the value of
its last tag. -/
theorem lookup_foldl_mapAssign (tags : List Tag) (acc : List (String × Option String))
    (k : String) :
    ((tags.foldl (fun m tag => mapAssign m (aws.StringValue tag.Key) tag.Value) acc).lookup
        k).map aws.StringValue =
      match lastValue k tags with
      | some v => some v
      | none => (acc.lookup k).map aws.StringValue := by
  induction tags generalizing acc with
  | nil => simp [lastValue]
  | cons t rest ih =>
    simp only [List.foldl_cons, lastValue]
    rw [ih]
    cases hl : lastValue k rest with
    | some v => rfl
    | none =>
      simp only [lookup_mapAssign]
      by_cases hk : k = aws.StringValue t.Key
      · have hb : (aws.StringValue t.Key == k) = true := by simpa using hk.symm
        simp [hk]
      · have hb : (aws.StringValue t.Key == k) = false := by simpa using Ne.symm hk
        simp [hk, hb]

theorem lookup_map_values (m : List (String × Option String)) (k : String) :
    (m.map (fun kv => (kv.1, aws.StringValue kv.2))).lookup k
      = (m.lookup k).map aws.StringValue := by
  induction m with
  | nil => rfl
  | cons x m ih =>
    obtain ⟨a, b⟩ := x
    by_cases hka : k = a
    · subst hka; simp [List.lookup_cons]
    · have hne : (k == a) = false := by simpa using hka
      simp only [List.map_cons, List.lookup_cons, hne, ih]

/-- C15: for a tag set `t` (keys pairwise distinct), converting to service tags
and back gives the same map, and the service tags are as many as the entries of
`t`, with pairwise distinct keys; for any list of service tags, `SsoKeyValueTags`
gives every key the value of the last tag bearing it. -/
theorem C15_sso_tags_round_trip (t : KeyValueTags) (ht : KeysUnique t) (tags : List Tag) :
    KeyValueTags.Map (SsoKeyValueTags (KeyValueTags.SsoTags t)) = KeyValueTags.Map t ∧
    (KeyValueTags.SsoTags t).length = t.length ∧
    ((KeyValueTags.SsoTags t).map (fun tag => tag.Key)).Nodup ∧
    (∀ k, (KeyValueTags.Map (SsoKeyValueTags tags)).lookup k = lastValue k tags) := by
  refine ⟨?_, ?_, ?_, ?_⟩
  · rw [SsoTags_eq_map]
    unfold SsoKeyValueTags
    rw [foldl_mapAssign_unique t [] ht (by simp)]
    simp only [New, KeyValueTags.Map, List.nil_append, List.map_map]
    have hid : ((fun kv : String × Option String => (kv.1, aws.StringValue kv.2)) ∘
        fun kv : String × String => (kv.1, some kv.2)) = id := by
      funext kv
      rfl
    rw [hid, List.map_id]
  · rw [SsoTags_eq_map]
    simp
  · rw [SsoTags_eq_map]
    have h : (t.map (fun kv => (⟨some kv.1, some kv.2⟩ : Tag))).map (fun tag => tag.Key)
        = (t.map Prod.fst).map some := by
      simp [List.map_map, Function.comp_def]
    rw [h]
    exact List.Nodup.map (Option.some_injective _) ht
  · intro k
    unfold SsoKeyValueTags
    simp only [New, KeyValueTags.Map]
    rw [lookup_map_values, lookup_foldl_mapAssign tags [] k]
    cases lastValue k tags <;> rfl

theorem C15_sso_tags_round_trip_witness :
    KeyValueTags.Map (SsoKeyValueTags (KeyValueTags.SsoTags [("env", "dev"), ("team", "a")]))
      = KeyValueTags.Map [("env", "dev"), ("team", "a")] ∧
    (KeyValueTags.SsoTags [("env", "dev"), ("team", "a")]).length
      = List.length [("env", "dev"), ("team", "a")] ∧
    ((KeyValueTags.SsoTags [("env", "dev"), ("team", "a")]).map (fun tag => tag.Key)).Nodup ∧
    (∀ k, (KeyValueTags.Map (SsoKeyValueTags
        [⟨some "env", some "dev"⟩, ⟨some "team", some "a"⟩, ⟨some "env", some "prod"⟩])).lookup k
      = lastValue k [⟨some "env", some "dev"⟩, ⟨some "team", some "a"⟩, ⟨some "env", some "prod"⟩]) :=
  C15_sso_tags_round_trip [("env", "dev"), ("team", "a")] (by decide)
    [⟨some "env", some "dev"⟩, ⟨some "team", some "a"⟩, ⟨some "env", some "prod"⟩]

end keyvaluetags

/-! ## Create and update of the permission set -/

set_option maxRecDepth 100000 in
/-- C13, the code at the failing input: a permission set is created with an
inline policy and one managed policy; both attachment requests carry the ARN of
the new permission set as `InstanceArn` and the configured instance ARN as
`PermissionSetArn`. -/
theorem C13_create_swaps_the_arns :
    (resourceAwsSsoPermissionSetCreate
        ⟨"", [("instance_arn", .string "arn:aws:sso:::instance/ssoins-1"),
          ("name", .string "admins"), ("inline_policy", .string "\x7b\x7d"),
          ("managed_policies", .stringList ["arn:aws:iam::aws:policy/ReadOnlyAccess"])]⟩
        (AWSClient.of
          { ssoadmin.SSOAdmin.serving [] [] [] with
            createPermissionSetAnswer := fun input =>
              .ok ⟨input.Name, none, none, none,
                some "arn:aws:sso:::permissionSet/ssoins-1/ps-1", "2020-11-01T00:00:00Z"⟩ }
          (identitystore.IdentityStore.serving []))).2.2.requests =
      [ssoadmin.Request.CreatePermissionSet
          ⟨some "arn:aws:sso:::instance/ssoins-1", some "admins", none, none, none, []⟩,
        ssoadmin.Request.PutInlinePolicyToPermissionSet
          ⟨some "\x7b\x7d", some "arn:aws:sso:::permissionSet/ssoins-1/ps-1",
            some "arn:aws:sso:::instance/ssoins-1"⟩,
        ssoadmin.Request.AttachManagedPolicyToPermissionSet
          ⟨some "arn:aws:sso:::permissionSet/ssoins-1/ps-1",
            some "arn:aws:iam::aws:policy/ReadOnlyAccess",
            some "arn:aws:sso:::instance/ssoins-1"⟩] := by
  decide


/-! ### The managed policies on update -/

theorem fails_record (conn : ssoadmin.SSOAdmin) (r : ssoadmin.Request) :
    (conn.record r).fails = conn.fails := by
  funext q
  cases q <;> rfl

theorem record_eq (conn : ssoadmin.SSOAdmin) (r : ssoadmin.Request) :
    conn.record r = { conn with requests := conn.requests ++ [r] } := rfl

theorem upToFirstFailure_of_none (fails : ssoadmin.Request → Bool) (l : List ssoadmin.Request)
    (h : l.any fails = false) : upToFirstFailure fails l = l := by
  induction l with
  | nil => rfl
  | cons r rest ih =>
    simp only [List.any_cons, Bool.or_eq_false_iff] at h
    simp [upToFirstFailure, h.1, ih h.2]

theorem upToFirstFailure_append (fails : ssoadmin.Request → Bool)
    (l₁ l₂ : List ssoadmin.Request) :
    upToFirstFailure fails (l₁ ++ l₂) =
      if l₁.any fails then upToFirstFailure fails l₁
      else l₁ ++ upToFirstFailure fails l₂ := by
  induction l₁ with
  | nil => simp
  | cons r rest ih =>
    by_cases hr : fails r = true
    · simp [upToFirstFailure, hr]
    · simp only [Bool.not_eq_true] at hr
      by_cases hrest : rest.any fails = true
      · simp [upToFirstFailure, hr, ih, hrest]
      · simp [upToFirstFailure, hr, ih, hrest]

/-- The detachment loop: the requests sent are those for the list, up to the
first that fails; an error is returned exactly when one fails. -/
theorem detachEach_spec (instanceArn permissionSetArn : String) (L : List String)
    (conn : ssoadmin.SSOAdmin) :
    (detachEach instanceArn permissionSetArn conn L).2 =
      { conn with requests := (conn.requests ++ upToFirstFailure conn.fails
        (L.map (fun v => ssoadmin.Request.DetachManagedPolicyFromPermissionSet
          ⟨some instanceArn, some v, some permissionSetArn⟩))) } ∧
    (detachEach instanceArn permissionSetArn conn L).1.isSome =
      (L.map (fun v => ssoadmin.Request.DetachManagedPolicyFromPermissionSet
        ⟨some instanceArn, some v, some permissionSetArn⟩)).any conn.fails := by
  induction L generalizing conn with
  | nil => simp [detachEach, upToFirstFailure]
  | cons v rest ih =>
    simp only [detachEach, ssoadmin.SSOAdmin.DetachManagedPolicyFromPermissionSet,
      List.map_cons, upToFirstFailure, List.any_cons]
    cases he : conn.detachManagedPolicyErr ⟨some instanceArn, some v, some permissionSetArn⟩ with
    | some e =>
      simp [ssoadmin.SSOAdmin.fails, he, record_eq]
    | none =>
      have h := ih (conn.record (.DetachManagedPolicyFromPermissionSet
        ⟨some instanceArn, some v, some permissionSetArn⟩))
      rw [fails_record] at h
      simp only [ssoadmin.SSOAdmin.fails, he, Option.isSome_none, Bool.false_eq_true, if_false,
        Bool.false_or]
      refine ⟨?_, h.2⟩
      rw [h.1]
      simp [record_eq]

/-- The attachment loop, likewise. -/
theorem attachEach_spec (instanceArn permissionSetArn : String) (L : List String)
    (conn : ssoadmin.SSOAdmin) :
    (attachEach instanceArn permissionSetArn conn L).2 =
      { conn with requests := (conn.requests ++ upToFirstFailure conn.fails
        (L.map (fun v => ssoadmin.Request.AttachManagedPolicyToPermissionSet
          ⟨some instanceArn, some v, some permissionSetArn⟩))) } ∧
    (attachEach instanceArn permissionSetArn conn L).1.isSome =
      (L.map (fun v => ssoadmin.Request.AttachManagedPolicyToPermissionSet
        ⟨some instanceArn, some v, some permissionSetArn⟩)).any conn.fails := by
  induction L generalizing conn with
  | nil => simp [attachEach, upToFirstFailure]
  | cons v rest ih =>
    simp only [attachEach, ssoadmin.SSOAdmin.AttachManagedPolicyToPermissionSet,
      List.map_cons, upToFirstFailure, List.any_cons]
    cases he : conn.attachManagedPolicyErr ⟨some instanceArn, some v, some permissionSetArn⟩ with
    | some e =>
      simp [ssoadmin.SSOAdmin.fails, he, record_eq]
    | none =>
      have h := ih (conn.record (.AttachManagedPolicyToPermissionSet
        ⟨some instanceArn, some v, some permissionSetArn⟩))
      rw [fails_record] at h
      simp only [ssoadmin.SSOAdmin.fails, he, Option.isSome_none, Bool.false_eq_true, if_false,
        Bool.false_or]
      refine ⟨?_, h.2⟩
      rw [h.1]
      simp [record_eq]


theorem hash_eq_keyOf (entries : List (String × String)) (v : String) :
    (⟨HashSchema, entries⟩ : schema.Set String).hash v = keyOf v := rfl

theorem foldl_Add_of_fresh (l : List String) (acc : List (String × String))
    (hF : ∀ x ∈ l, ∀ y ∈ l, keyOf x = keyOf y → x = y) (hl : l.Nodup)
    (hacc : ∀ x ∈ l, keyOf x ∉ acc.map Prod.fst) :
    l.foldl Set.Add (⟨HashSchema, acc⟩ : schema.Set String) =
      ⟨HashSchema, acc ++ l.map (fun x => (keyOf x, x))⟩ := by
  induction l generalizing acc with
  | nil => simp
  | cons a l ih =>
    have hnd : a ∉ l ∧ l.Nodup := by simpa using hl
    have ha : keyOf a ∉ acc.map Prod.fst := hacc a (List.mem_cons_self _ _)
    have hadd : Set.Add (⟨HashSchema, acc⟩ : schema.Set String) a =
        ⟨HashSchema, acc ++ [(keyOf a, a)]⟩ := by
      unfold Set.Add
      rw [hash_eq_keyOf, if_neg]
      simp only [List.any_eq_true, beq_iff_eq, not_exists, not_and]
      intro e he hcode
      exact ha (hcode ▸ List.mem_map_of_mem Prod.fst he)
    rw [List.foldl_cons, hadd,
      ih _ (fun x hx y hy => hF x (List.mem_cons_of_mem _ hx) y (List.mem_cons_of_mem _ hy)) hnd.2]
    · simp
    · intro x hx hmem
      simp only [List.map_append, List.map_cons, List.map_nil, List.mem_append,
        List.mem_singleton] at hmem
      rcases hmem with hmem | hmem
      · exact hacc x (List.mem_cons_of_mem _ hx) hmem
      · have hxa : x = a :=
          hF x (List.mem_cons_of_mem _ hx) a (List.mem_cons_self _ _) hmem
        exact hnd.1 (hxa ▸ hx)

theorem ofList_of_nodup (l : List String)
    (hF : ∀ x ∈ l, ∀ y ∈ l, keyOf x = keyOf y → x = y) (hl : l.Nodup) :
    Set.ofList HashSchema l = ⟨HashSchema, l.map (fun x => (keyOf x, x))⟩ := by
  unfold Set.ofList
  rw [foldl_Add_of_fresh l [] hF hl (by simp)]
  simp

/-- The difference of two sets of strings, listed: the items of the first that
the second has not, in the order of their keys, as long as no two of the strings
share a key. -/
theorem Difference_List (O N : List String)
    (hF : ∀ x ∈ O ++ N, ∀ y ∈ O ++ N, keyOf x = keyOf y → x = y) (hO : O.Nodup)
    (hN : N.Nodup) :
    ((Set.ofList HashSchema O).Difference (Set.ofList HashSchema N)).List =
      inKeyOrder (O.filter (fun v => !N.contains v)) := by
  rw [ofList_of_nodup O
      (fun x hx y hy => hF x (List.mem_append_left _ hx) y (List.mem_append_left _ hy)) hO,
    ofList_of_nodup N
      (fun x hx y hy => hF x (List.mem_append_right _ hx) y (List.mem_append_right _ hy)) hN]
  have hfilter : (O.map (fun x => (keyOf x, x))).filter
      (fun e => !(N.map (fun x => (keyOf x, x))).any (fun o => o.1 == e.1)) =
      (O.filter (fun v => !N.contains v)).map (fun x => (keyOf x, x)) := by
    rw [List.filter_map]
    congr 1
    apply List.filter_congr
    intro x hxO
    have hiff : (List.map (fun x => (keyOf x, x)) N).any (fun o => o.1 == keyOf x)
        = N.contains x := by
      rw [Bool.eq_iff_iff]
      simp only [List.any_eq_true, List.mem_map, beq_iff_eq, List.contains_iff_exists_mem_beq]
      constructor
      · rintro ⟨e, ⟨y, hy, rfl⟩, hxy⟩
        exact ⟨y, hy,
          (hF y (List.mem_append_right _ hy) x (List.mem_append_left _ hxO) hxy).symm⟩
      · rintro ⟨y, hy, hxy⟩
        exact ⟨(keyOf y, y), ⟨y, hy, rfl⟩, by rw [hxy]⟩
    simp only [Function.comp_apply, hiff]
  simp only [Set.Difference, Set.List, hfilter, inKeyOrder]

/-- Listing by key loses and repeats nothing. -/
theorem inKeyOrder_perm (l : List String) : (inKeyOrder l).Perm l := by
  unfold inKeyOrder byKey
  have h := (List.perm_insertionSort (fun a b : String × String => strings.Less b.1 a.1 = false)
    (l.map (fun v => (keyOf v, v)))).map Prod.snd
  have hid : (l.map (fun v => (keyOf v, v))).map Prod.snd = l := by
    simp [List.map_map, Function.comp_def]
  rw [hid] at h
  exact h

theorem fails_with_requests (conn : ssoadmin.SSOAdmin) (rs : List ssoadmin.Request) :
    ({ conn with requests := rs } : ssoadmin.SSOAdmin).fails = conn.fails := by
  funext q
  cases q <;> rfl

/-- The managed policies part of the update, when the old and the new set differ:
the requests sent are the planned ones up to the first that fails, and an error
is returned exactly when one fails. -/
theorem updateManagedPolicies_spec (old : List (String × Value)) (d : ResourceData)
    (conn : ssoadmin.SSOAdmin) (O N : List String)
    (hinj : ∀ x ∈ O ++ N, ∀ y ∈ O ++ N, keyOf x = keyOf y → x = y)
    (hO : old.lookup "managed_policies" = some (.stringList O))
    (hN : d.attrs.lookup "managed_policies" = some (.stringList N))
    (hdiff : O ≠ N) (hOu : O.Nodup) (hNu : N.Nodup) :
    (updateManagedPolicies old d conn).2 =
      { conn with requests := (conn.requests ++ upToFirstFailure conn.fails
        (plannedPolicyRequests (d.GetString "instance_arn") d.Id O N)) } ∧
    (updateManagedPolicies old d conn).1.isSome =
      (plannedPolicyRequests (d.GetString "instance_arn") d.Id O N).any conn.fails := by
  have hchange : d.HasChange old "managed_policies" = true := by
    simp only [ResourceData.HasChange, hO, hN]
    simpa using hdiff
  have hrem := Difference_List O N hinj hOu hNu
  have hadd := Difference_List N O
    (fun x hx y hy => hinj x (by simpa [or_comm] using hx) y (by simpa [or_comm] using hy))
    hNu hOu
  have hdet := detachEach_spec (d.GetString "instance_arn") d.Id
    (inKeyOrder (O.filter (fun v => !N.contains v))) conn
  unfold updateManagedPolicies
  simp only [hchange, if_true, hO, hN, Value.asStringSet, hrem, hadd]
  unfold plannedPolicyRequests
  rw [upToFirstFailure_append, List.any_append]
  match hrun : detachEach (d.GetString "instance_arn") d.Id conn
      (inKeyOrder (O.filter (fun v => !N.contains v))) with
  | (some e, conn1) =>
    rw [hrun] at hdet
    simp only [Option.isSome_some] at hdet
    simp only [← hdet.2, if_true, Option.isSome_some, Bool.true_or, and_true]
    exact hdet.1
  | (none, conn1) =>
    rw [hrun] at hdet
    simp only [Option.isSome_none] at hdet
    have hatt := attachEach_spec (d.GetString "instance_arn") d.Id
      (inKeyOrder (N.filter (fun v => !O.contains v))) conn1
    simp only [← hdet.2, Bool.false_eq_true, if_false, Bool.false_or]
    have hc1 : conn1 = { conn with requests := (conn.requests ++
        (inKeyOrder (O.filter (fun v => !N.contains v))).map
          (fun v => ssoadmin.Request.DetachManagedPolicyFromPermissionSet
            ⟨some (d.GetString "instance_arn"), some v, some d.Id⟩)) } := by
      have h1 := hdet.1
      rw [upToFirstFailure_of_none _ _ hdet.2.symm] at h1
      exact h1
    refine ⟨?_, ?_⟩
    · rw [hatt.1, hc1, fails_with_requests]
      simp [List.append_assoc]
    · rw [hatt.2, hc1, fails_with_requests]

set_option maxRecDepth 100000 in
/-- C14, counterexample: the old set holds one policy and the new set another,
and the two ARNs have the same hash code, hence the same key 285580850 in the
sets of the SDK; the update succeeds and sends neither the detachment of the old policy nor
the attachment of the new one. -/
theorem C14_colliding_arns_are_not_reconciled :
    keyOf "arn:aws:iam::aws:policy/TeamfoNvYcEB" = "285580850" ∧
    keyOf "arn:aws:iam::aws:policy/TeamKjqrt8eI" = "285580850" ∧
    (resourceAwsSsoPermissionSetUpdate
        [("instance_arn", .string "arn:aws:sso:::instance/ssoins-1"), ("name", .string "admins"),
          ("managed_policies",
            .stringList ["arn:aws:iam::aws:policy/TeamfoNvYcEB"])]
        ⟨"arn:aws:sso:::permissionSet/ssoins-1/ps-1",
          [("instance_arn", .string "arn:aws:sso:::instance/ssoins-1"),
            ("name", .string "admins"),
            ("managed_policies",
              .stringList ["arn:aws:iam::aws:policy/TeamKjqrt8eI"])]⟩
        (AWSClient.of
          (ssoadmin.SSOAdmin.serving []
            [⟨some "admins", none, none, none,
              some "arn:aws:sso:::permissionSet/ssoins-1/ps-1", "2020-11-01T00:00:00Z"⟩] [])
          (identitystore.IdentityStore.serving []))).1 = none ∧
    (resourceAwsSsoPermissionSetUpdate
        [("instance_arn", .string "arn:aws:sso:::instance/ssoins-1"), ("name", .string "admins"),
          ("managed_policies",
            .stringList ["arn:aws:iam::aws:policy/TeamfoNvYcEB"])]
        ⟨"arn:aws:sso:::permissionSet/ssoins-1/ps-1",
          [("instance_arn", .string "arn:aws:sso:::instance/ssoins-1"),
            ("name", .string "admins"),
            ("managed_policies",
              .stringList ["arn:aws:iam::aws:policy/TeamKjqrt8eI"])]⟩
        (AWSClient.of
          (ssoadmin.SSOAdmin.serving []
            [⟨some "admins", none, none, none,
              some "arn:aws:sso:::permissionSet/ssoins-1/ps-1", "2020-11-01T00:00:00Z"⟩] [])
          (identitystore.IdentityStore.serving []))).2.2.requests = [] := by
  decide

/-- C14, as amended: when the old set `O` and the new set `N` of managed policy
ARNs differ, no two of their ARNs share a key in the sets of the SDK (the
hash code of the ARN in decimal), and the update reaches the managed policies, the
requests it sends for them are one detachment for each ARN of `O` not in `N`,
then one attachment for each ARN of `N` not in `O`, each group in the order of
the keys, and nothing for the ARNs of both; the first request that fails is the
last one sent and the update returns an error; when none fails all are sent. -/
theorem C14_managed_policy_reconciliation (old : List (String × Value)) (d : ResourceData)
    (meta : AWSClient) (conn : ssoadmin.SSOAdmin) (O N : List String)
    (hinj : ∀ x ∈ O ++ N, ∀ y ∈ O ++ N, keyOf x = keyOf y → x = y)
    (hO : old.lookup "managed_policies" = some (.stringList O))
    (hN : d.attrs.lookup "managed_policies" = some (.stringList N))
    (hdiff : O ≠ N) (hOu : O.Nodup) (hNu : N.Nodup)
    (hbefore : updateBeforeManagedPolicies old d meta = (none, conn)) :
    (resourceAwsSsoPermissionSetUpdate old d meta).2.2.requests =
      conn.requests ++ upToFirstFailure conn.fails
        (plannedPolicyRequests (d.GetString "instance_arn") d.Id O N) ∧
    ((plannedPolicyRequests (d.GetString "instance_arn") d.Id O N).any conn.fails = true →
      (resourceAwsSsoPermissionSetUpdate old d meta).1.isSome = true) ∧
    ((plannedPolicyRequests (d.GetString "instance_arn") d.Id O N).any conn.fails = false →
      (resourceAwsSsoPermissionSetUpdate old d meta).2.2.requests =
        conn.requests ++ plannedPolicyRequests (d.GetString "instance_arn") d.Id O N) ∧
    (inKeyOrder (O.filter (fun v => !N.contains v))).Perm (O.filter (fun v => !N.contains v)) ∧
    (inKeyOrder (N.filter (fun v => !O.contains v))).Perm (N.filter (fun v => !O.contains v)) := by
  have hspec := updateManagedPolicies_spec old d conn O N hinj hO hN hdiff hOu hNu
  have hreq : (resourceAwsSsoPermissionSetUpdate old d meta).2.2.requests =
      conn.requests ++ upToFirstFailure conn.fails
        (plannedPolicyRequests (d.GetString "instance_arn") d.Id O N) := by
    unfold resourceAwsSsoPermissionSetUpdate
    simp only [hbefore]
    match hrun : updateManagedPolicies old d conn with
    | (some e, conn2) =>
      rw [hrun] at hspec
      have h1 : conn2 = _ := hspec.1
      simp only
      rw [h1]
    | (none, conn2) =>
      rw [hrun] at hspec
      have h1 : conn2 = _ := hspec.1
      simp only
      rw [h1]
  refine ⟨hreq, ?_, ?_, inKeyOrder_perm _, inKeyOrder_perm _⟩
  · intro hfail
    unfold resourceAwsSsoPermissionSetUpdate
    simp only [hbefore]
    match hrun : updateManagedPolicies old d conn with
    | (some e, conn2) => rfl
    | (none, conn2) =>
      rw [hrun] at hspec
      rw [hfail] at hspec
      simp at hspec
  · intro hnone
    rw [hreq, upToFirstFailure_of_none _ _ hnone]

set_option maxRecDepth 100000 in
theorem C14_managed_policy_reconciliation_witness :
    (resourceAwsSsoPermissionSetUpdate
        [("instance_arn", .string "arn:aws:sso:::instance/ssoins-1"),
          ("managed_policies", .stringList ["arn:aws:iam::aws:policy/ReadOnlyAccess",
            "arn:aws:iam::aws:policy/job-function/Billing"])]
        ⟨"arn:aws:sso:::permissionSet/ssoins-1/ps-1",
          [("instance_arn", .string "arn:aws:sso:::instance/ssoins-1"),
            ("managed_policies", .stringList ["arn:aws:iam::aws:policy/job-function/Billing",
              "arn:aws:iam::aws:policy/AdministratorAccess"])]⟩
        (AWSClient.of (ssoadmin.SSOAdmin.serving [] [] [])
          (identitystore.IdentityStore.serving []))).2.2.requests =
      (ssoadmin.SSOAdmin.serving [] [] []).requests ++
        plannedPolicyRequests
          ((⟨"arn:aws:sso:::permissionSet/ssoins-1/ps-1",
            [("instance_arn", .string "arn:aws:sso:::instance/ssoins-1"),
              ("managed_policies", .stringList ["arn:aws:iam::aws:policy/job-function/Billing",
                "arn:aws:iam::aws:policy/AdministratorAccess"])]⟩ : ResourceData).GetString
              "instance_arn")
          (⟨"arn:aws:sso:::permissionSet/ssoins-1/ps-1",
            [("instance_arn", .string "arn:aws:sso:::instance/ssoins-1"),
              ("managed_policies", .stringList ["arn:aws:iam::aws:policy/job-function/Billing",
                "arn:aws:iam::aws:policy/AdministratorAccess"])]⟩ : ResourceData).Id
          ["arn:aws:iam::aws:policy/ReadOnlyAccess",
            "arn:aws:iam::aws:policy/job-function/Billing"]
          ["arn:aws:iam::aws:policy/job-function/Billing",
            "arn:aws:iam::aws:policy/AdministratorAccess"] :=
  (C14_managed_policy_reconciliation
    [("instance_arn", .string "arn:aws:sso:::instance/ssoins-1"),
      ("managed_policies", .stringList ["arn:aws:iam::aws:policy/ReadOnlyAccess",
        "arn:aws:iam::aws:policy/job-function/Billing"])]
    ⟨"arn:aws:sso:::permissionSet/ssoins-1/ps-1",
      [("instance_arn", .string "arn:aws:sso:::instance/ssoins-1"),
        ("managed_policies", .stringList ["arn:aws:iam::aws:policy/job-function/Billing",
          "arn:aws:iam::aws:policy/AdministratorAccess"])]⟩
    (AWSClient.of (ssoadmin.SSOAdmin.serving [] [] []) (identitystore.IdentityStore.serving []))
    (ssoadmin.SSOAdmin.serving [] [] [])
    ["arn:aws:iam::aws:policy/ReadOnlyAccess", "arn:aws:iam::aws:policy/job-function/Billing"]
    ["arn:aws:iam::aws:policy/job-function/Billing",
      "arn:aws:iam::aws:policy/AdministratorAccess"]
    (by decide) rfl rfl (by decide) (by decide) (by decide) rfl).2.2.1 (by decide)

set_option maxRecDepth 100000 in
/-- The order of the keys at work: the old set lists `AdministratorAccess` (key
1429554060) before `job-function/Billing` (key 1051990881), the new set is empty,
and the service refuses to detach `AdministratorAccess`; `job-function/Billing`,
whose key comes first, is detached before the failing request ends the update. -/
theorem update_detaches_in_key_order :
    keyOf "arn:aws:iam::aws:policy/AdministratorAccess" = "1429554060" ∧
    keyOf "arn:aws:iam::aws:policy/job-function/Billing" = "1051990881" ∧
    (resourceAwsSsoPermissionSetUpdate
        [("instance_arn", .string "arn:aws:sso:::instance/ssoins-1"),
          ("managed_policies", .stringList ["arn:aws:iam::aws:policy/AdministratorAccess",
            "arn:aws:iam::aws:policy/job-function/Billing"])]
        ⟨"arn:aws:sso:::permissionSet/ssoins-1/ps-1",
          [("instance_arn", .string "arn:aws:sso:::instance/ssoins-1")]⟩
        (AWSClient.of
          { ssoadmin.SSOAdmin.serving [] [] [] with
            detachManagedPolicyErr := fun input =>
              if input.ManagedPolicyArn == some "arn:aws:iam::aws:policy/AdministratorAccess" then
                some ⟨"ConflictException", "in use"⟩
              else none }
          (identitystore.IdentityStore.serving []))).2.2.requests =
      [ssoadmin.Request.DetachManagedPolicyFromPermissionSet
          ⟨some "arn:aws:sso:::instance/ssoins-1",
            some "arn:aws:iam::aws:policy/job-function/Billing",
            some "arn:aws:sso:::permissionSet/ssoins-1/ps-1"⟩,
        ssoadmin.Request.DetachManagedPolicyFromPermissionSet
          ⟨some "arn:aws:sso:::instance/ssoins-1",
            some "arn:aws:iam::aws:policy/AdministratorAccess",
            some "arn:aws:sso:::permissionSet/ssoins-1/ps-1"⟩] := by
  decide

/-! ### The attachments on create -/

theorem attachEachExpanded_requests (instanceArn permissionSetArn : Option String)
    (L : List (Option String)) (conn : ssoadmin.SSOAdmin) :
    ∃ new, (attachEachExpanded instanceArn permissionSetArn conn L).2.requests
        = conn.requests ++ new ∧
      ∀ r ∈ new, ∃ managedPolicyArn,
        r = ssoadmin.Request.AttachManagedPolicyToPermissionSet
          ⟨instanceArn, managedPolicyArn, permissionSetArn⟩ := by
  induction L generalizing conn with
  | nil => exact ⟨[], by simp [attachEachExpanded], by simp⟩
  | cons v rest ih =>
    simp only [attachEachExpanded, ssoadmin.SSOAdmin.AttachManagedPolicyToPermissionSet]
    cases conn.attachManagedPolicyErr ⟨instanceArn, v, permissionSetArn⟩ with
    | some e =>
      exact ⟨[.AttachManagedPolicyToPermissionSet ⟨instanceArn, v, permissionSetArn⟩], rfl,
        by simp⟩
    | none =>
      obtain ⟨new, hnew, hall⟩ := ih (conn.record
        (.AttachManagedPolicyToPermissionSet ⟨instanceArn, v, permissionSetArn⟩))
      refine ⟨.AttachManagedPolicyToPermissionSet ⟨instanceArn, v, permissionSetArn⟩ :: new,
        ?_, ?_⟩
      · rw [hnew, record_eq]
        exact List.append_assoc _ _ _
      · intro r hr
        rcases List.mem_cons.1 hr with rfl | hr
        · exact ⟨v, rfl⟩
        · exact hall r hr

/-- Every request sent by `attachPoliciesToPermissionSet` carries its third
argument as `InstanceArn` and its fourth as `PermissionSetArn`. -/
theorem attachPolicies_requests (conn : ssoadmin.SSOAdmin)
    (d : ResourceData) (instanceArn permissionSetArn : Option String) :
    ∃ new, (attachPoliciesToPermissionSet conn d instanceArn
        permissionSetArn).2.requests = conn.requests ++ new ∧
      ∀ r ∈ new,
        (∃ inlinePolicy, r = ssoadmin.Request.PutInlinePolicyToPermissionSet
          ⟨inlinePolicy, instanceArn, permissionSetArn⟩) ∨
        (∃ managedPolicyArn, r = ssoadmin.Request.AttachManagedPolicyToPermissionSet
          ⟨instanceArn, managedPolicyArn, permissionSetArn⟩) := by
  unfold attachPoliciesToPermissionSet
  by_cases hok : (d.GetOkString "inline_policy").2 = true
  · simp only [hok, if_true, ssoadmin.SSOAdmin.PutInlinePolicyToPermissionSet]
    cases conn.putInlinePolicyErr
        ⟨some (d.GetOkString "inline_policy").1, instanceArn, permissionSetArn⟩ with
    | some e =>
      exact ⟨[.PutInlinePolicyToPermissionSet
        ⟨some (d.GetOkString "inline_policy").1, instanceArn, permissionSetArn⟩], rfl,
        by simp⟩
    | none =>
      simp only
      split
      · obtain ⟨new, hnew, hall⟩ := attachEachExpanded_requests instanceArn permissionSetArn
          (expandStringSet (Value.asStringSet (d.attrs.lookup "managed_policies")))
          (conn.record (.PutInlinePolicyToPermissionSet
            ⟨some (d.GetOkString "inline_policy").1, instanceArn, permissionSetArn⟩))
        refine ⟨.PutInlinePolicyToPermissionSet
          ⟨some (d.GetOkString "inline_policy").1, instanceArn, permissionSetArn⟩ :: new, ?_, ?_⟩
        · rw [hnew, record_eq]
          exact List.append_assoc _ _ _
        · intro r hr
          rcases List.mem_cons.1 hr with rfl | hr
          · exact Or.inl ⟨_, rfl⟩
          · exact Or.inr (hall r hr)
      · exact ⟨[.PutInlinePolicyToPermissionSet
          ⟨some (d.GetOkString "inline_policy").1, instanceArn, permissionSetArn⟩], rfl,
          by simp⟩
  · simp only [hok, Bool.false_eq_true, if_false]
    split
    · obtain ⟨new, hnew, hall⟩ := attachEachExpanded_requests instanceArn permissionSetArn
        (expandStringSet (Value.asStringSet (d.attrs.lookup "managed_policies"))) conn
      exact ⟨new, hnew, fun r hr => Or.inr (hall r hr)⟩
    · exact ⟨[], by simp, by simp⟩

end Aws
